import Mathlib

deriving instance DecidableEq for Except

/-!
Verification of the traffic-assignment feasibility engine
(`solverUtils.py`, `solveStrategy.py`, `graphParser.py`).

The Python code is shallowly embedded: Z3 real expressions become a small
AST (`RExpr`), assertions become `BExpr`, the networkx multigraph becomes a
list of keyed edges, fallible Python code (dictionary / list indexing,
division) returns `Except String`, and the Z3 solver is abstracted as an
assertion-frame stack driven by an oracle deciding satisfiability.
Python numbers are modelled as rationals; Z3 decimal strings produced by
`as_decimal` are abstracted to their rational value.
-/

namespace TrafficSpec

/-- Z3 real-valued expressions as built by the Python code.  `const` is a
plain Python number (int/float); every other constructor is a genuine Z3
expression, so `is_expr` holds exactly off `const`. -/
inductive RExpr where
  | const (q : ℚ)
  | var (name : String)
  | add (a b : RExpr)
  | sub (a b : RExpr)
  | mul (a b : RExpr)
deriving DecidableEq, Repr

/-- `z3.is_expr`: true for every value except plain Python numbers. -/
def isExpr : RExpr → Bool
  | .const _ => false
  | _ => true

/-- Numeric value of a plain number; only meaningful off Z3 expressions. -/
def toNum : RExpr → ℚ
  | .const q => q
  | _ => 0

/-- Python `+` on a mix of numbers and Z3 expressions: two numbers add
numerically, otherwise a Z3 `add` node is built. -/
def mkAddPy (a b : RExpr) : RExpr :=
  match a, b with
  | .const x, .const y => .const (x + y)
  | _, _ => .add a b

/-- Python `*` on a mix of numbers and Z3 expressions. -/
def mkMulPy (a b : RExpr) : RExpr :=
  match a, b with
  | .const x, .const y => .const (x * y)
  | _, _ => .mul a b

/-- `z3.Sum` on a list already known to contain a Z3 expression: a chain of
additions (the n-ary Z3 node is modelled left-associatively). -/
def z3SumL : List RExpr → RExpr
  | [] => .const 0
  | a :: rest => rest.foldl RExpr.add a

/-- `z3.Sum(args)`: if no argument is a Z3 expression, Python's numeric sum
is returned (a plain number); otherwise a Z3 addition node. -/
def z3Sum (l : List RExpr) : RExpr :=
  if l.any isExpr then z3SumL l else .const ((l.map toNum).sum)

/-- Boolean Z3 assertions emitted by the constraint builders. -/
inductive BExpr where
  | le (a b : RExpr)
  | ge (a b : RExpr)
  | eq (a b : RExpr)
  | implies (a : BExpr) (b : BExpr)
  | and2 (a b : BExpr)
  | and1 (a : BExpr)
deriving DecidableEq, Repr

/-- Edge attribute dictionary.  `f_e` and `price` are `Option` because the
corresponding dictionary keys may be absent before the variable allocator
has run (`data['f_e']` / `data['price']` raise `KeyError` when missing);
`capacity` is absent for edges whose input file omitted it. -/
structure EdgeData where
  color : String
  capacity : Option ℚ
  price : Option RExpr
  k : ℚ
  f_e : Option RExpr
deriving DecidableEq, Repr

/-- One keyed edge of the undirected networkx `MultiGraph`. -/
structure GEdge where
  u : String
  v : String
  key : String
  data : EdgeData
deriving DecidableEq, Repr

/-- The multigraph: edges in insertion order (networkx stores adjacency in
insertion order for graphs built from an edge list). -/
structure Graph where
  edges : List GEdge
deriving DecidableEq, Repr

/-- Node membership (`s in graph`): graphs built by `parse_edgelist` and
grown by `add_edge` have exactly the edge endpoints as nodes. -/
def nodes (g : Graph) : List String :=
  g.edges.flatMap (fun e => [e.u, e.v])

/-- `graph[u][v][key]` lookup, orientation-insensitive (undirected). -/
def lookupEdge (g : Graph) (u v key : String) : Option EdgeData :=
  (g.edges.find? (fun e =>
    ((e.u = u ∧ e.v = v) ∨ (e.u = v ∧ e.v = u)) ∧ e.key = key)).map (·.data)

/-- `graph[u][v]`: all parallel edges between `u` and `v`, as (key, data)
pairs in insertion order. -/
def parallelEdges (g : Graph) (u v : String) : List (String × EdgeData) :=
  g.edges.filterMap (fun e =>
    if (e.u = u ∧ e.v = v) ∨ (e.u = v ∧ e.v = u) then some (e.key, e.data) else none)

/-- A route: a list of `(u, v, key)` edge identifiers. -/
abbrev Route := List (String × String × String)

/-- A demand record `{s, t, d}`. -/
structure Demand where
  s : String
  t : String
  d : ℚ
deriving DecidableEq, Repr

/-- Fetch a required dictionary entry, raising `KeyError` when absent. -/
def require {α : Type} (o : Option α) (msg : String) : Except String α :=
  match o with
  | some a => Except.ok a
  | none => Except.error msg

/-- A Python list comprehension over fallible element computations:
evaluate left to right, propagating the first raised exception. -/
def exMapM {α β : Type} (f : α → Except String β) : List α → Except String (List β)
  | [] => Except.ok []
  | a :: rest => do
    let b ← f a
    let bs ← exMapM f rest
    Except.ok (b :: bs)

/-- `compute_route_cost`: the `k * f_e + price` term of one edge. -/
def routeCostTerm (d : EdgeData) : Except String RExpr := do
  let fe ← require d.f_e "KeyError: f_e"
  let pr ← require d.price "KeyError: price"
  Except.ok (mkAddPy (mkMulPy (.const d.k) fe) pr)

/-- `compute_route_cost(graph, route_edges)`: sum over the route's edges of
`k * f_e + price`; a Z3 sum when any term is symbolic, a number otherwise. -/
def compute_route_cost (g : Graph) (r : Route) : Except String RExpr := do
  let terms ← exMapM (fun e => do
    let d ← require (lookupEdge g e.1 e.2.1 e.2.2) "KeyError: edge"
    routeCostTerm d) r
  Except.ok (if terms.any isExpr then z3SumL terms else .const ((terms.map toNum).sum))

/-- `compute_route_price(graph, route_edges)`: sum of the ticket prices. -/
def compute_route_price (g : Graph) (r : Route) : Except String RExpr := do
  let terms ← exMapM (fun e => do
    let d ← require (lookupEdge g e.1 e.2.1 e.2.2) "KeyError: edge"
    require d.price "KeyError: price") r
  Except.ok (if terms.any isExpr then z3SumL terms else .const ((terms.map toNum).sum))

/-- Total route cost (used by claim-shaped statements); agrees with
`compute_route_cost` whenever the latter succeeds. -/
def routeCostD (g : Graph) (r : Route) : RExpr :=
  match compute_route_cost g r with
  | .ok c => c
  | .error _ => .const 0

/-- Total route price; agrees with `compute_route_price` on success. -/
def routePriceD (g : Graph) (r : Route) : RExpr :=
  match compute_route_price g r with
  | .ok c => c
  | .error _ => .const 0

/-! ## Route enumeration (`getAllPossibleRoutes`) -/

/-- Adjacency of a node: distinct neighbours in adjacency (insertion)
order, as networkx reports them. -/
def dedupAux {α : Type} [DecidableEq α] : List α → List α → List α
  | [], _ => []
  | a :: rest, seen => if a ∈ seen then dedupAux rest seen else a :: dedupAux rest (a :: seen)

/-- Remove duplicates keeping first occurrences. -/
def eraseDupsKeepFirst {α : Type} [DecidableEq α] (l : List α) : List α :=
  dedupAux l []

/-- Neighbours of `u` in adjacency order. -/
def neighbors (g : Graph) (u : String) : List String :=
  eraseDupsKeepFirst (g.edges.filterMap (fun e =>
    if e.u = u then some e.v else if e.v = u then some e.u else none))

/-- Depth-first enumeration of simple node paths ending at `t`, starting
from `u`, having visited `visited`, with at most `fuel` further edges:
the semantics of `networkx.all_simple_paths` with `cutoff = fuel`. -/
def simplePathsAux (g : Graph) (t : String) : Nat → String → List String → List (List String)
  | fuel, u, visited =>
    if u = t then [[t]]
    else
      match fuel with
      | 0 => []
      | Nat.succ f =>
        (neighbors g u).flatMap (fun w =>
          if w ∈ visited then []
          else (simplePathsAux g t f w (w :: visited)).map (fun p => u :: p))

/-- `nx.all_simple_paths(graph, s, t, cutoff)` (empty when `s = t`). -/
def simplePaths (g : Graph) (s t : String) (cutoff : Nat) : List (List String) :=
  if s = t then [] else simplePathsAux g t cutoff s [s]

/-- `min(len(sublist) for sublist in node_paths)` on a non-empty list. -/
def listMin : List Nat → Nat
  | [] => 0
  | a :: rest => rest.foldl min a

/-- `itertools.product` over a list of option lists, in Python's order
(rightmost factor varying fastest). -/
def cartProd {α : Type} : List (List α) → List (List α)
  | [] => [[]]
  | opts :: rest => opts.flatMap (fun o => (cartProd rest).map (fun c => o :: c))

/-- Consecutive node pairs `(path[i], path[i+1])` of a node path. -/
def consecPairs : List String → List (String × String)
  | [] => []
  | [_] => []
  | a :: b :: rest => (a, b) :: consecPairs (b :: rest)

/-- Expand one node path to edge-level routes: the Cartesian product over
the parallel edges between each consecutive node pair. -/
def expandPath (g : Graph) (path : List String) : List Route :=
  cartProd ((consecPairs path).map (fun p =>
    (parallelEdges g p.1 p.2).map (fun kd => (p.1, p.2, kd.1))))

/-- Attributes of the synthetic personal edge
(`k=1, capacity=500, price=100, color='personal'`, no `f_e` yet). -/
def autoEdgeData : EdgeData :=
  { color := "personal", capacity := some 500, price := some (.const 100), k := 1, f_e := none }

/-- Key of the synthetic personal edge for a demand. -/
def autoKey (dm : Demand) : String :=
  "auto_" ++ dm.s ++ "_" ++ dm.t

/-- Loop body of `getAllPossibleRoutes` for one demand.  `sel` models the
iteration order of the Python `set` used to deduplicate node paths: it
receives the min-length node paths (with duplicates) and returns the
deduplicated list in the order the `set` yields them. -/
def routesForSel (sel : List (List String) → List (List String)) (maxHops : Nat)
    (g : Graph) (dm : Demand) : Graph × List Route :=
  let nodePaths :=
    if dm.s ∈ nodes g ∧ dm.t ∈ nodes g then simplePaths g dm.s dm.t maxHops else []
  if nodePaths.isEmpty then
    (⟨g.edges ++ [⟨dm.s, dm.t, autoKey dm, autoEdgeData⟩]⟩, [[(dm.s, dm.t, autoKey dm)]])
  else
    let minLength := listMin (nodePaths.map List.length)
    let pruned := sel (nodePaths.filter (fun p => p.length = minLength))
    (g, (pruned.flatMap (expandPath g)).take 6)

/-- `getAllPossibleRoutes`, folding the loop body over the demand list and
threading the (mutated) graph. -/
def garGo (sel : List (List String) → List (List String)) (maxHops : Nat) :
    Graph → List Demand → Graph × List (List Route)
  | g, [] => (g, [])
  | g, dm :: rest =>
    let gr := routesForSel sel maxHops g dm
    let grs := garGo sel maxHops gr.1 rest
    (grs.1, gr.2 :: grs.2)

/-- `getAllPossibleRoutes` with the set-iteration order `sel` and hop limit
explicit. -/
def getAllPossibleRoutesSel (sel : List (List String) → List (List String))
    (maxHops : Nat) (g : Graph) (demands : List Demand) : Graph × List (List Route) :=
  garGo sel maxHops g demands

/-- `getAllPossibleRoutes(graph, demands)` with the default `max_hops = 4`
and a fixed (first-occurrence) set order. -/
def getAllPossibleRoutes (g : Graph) (demands : List Demand) : Graph × List (List Route) :=
  getAllPossibleRoutesSel eraseDupsKeepFirst 4 g demands

/-- The graph state after the enumerator has processed the first `i`
demands. -/
def graphAt (sel : List (List String) → List (List String)) (maxHops : Nat)
    (g : Graph) (demands : List Demand) (i : Nat) : Graph :=
  (garGo sel maxHops g (demands.take i)).1

/-! ## Constraint builders (`addC1C2Constraints`, `addC3C4Constraints`) -/

/-- Does the route contain the graph edge, compared as the code does:
oriented tuple equality of `(u, v, key)`. -/
def routeUsesEdge (e : GEdge) (r : Route) : Bool :=
  r.any (fun t => t.1 = e.u ∧ t.2.1 = e.v ∧ t.2.2 = e.key)

/-- Inner scan of `addC1C2Constraints`: walk one demand's routes and its
route-flow row in lockstep collecting `f_R_i_vars[j]` for the routes that
use edge `e`; `row[j]` is only read (and can only raise) on a match. -/
def collectInner (e : GEdge) : List Route → List RExpr → Except String (List RExpr)
  | [], _ => Except.ok []
  | r :: rest, row =>
    if routeUsesEdge e r then
      match row with
      | [] => Except.error "IndexError: f_R"
      | x :: rowRest => do
        let tl ← collectInner e rest rowRest
        Except.ok (x :: tl)
    else collectInner e rest row.tail

/-- Outer scan of `addC1C2Constraints` over all demands: `f_R_vars[i]` is
read per demand and raises when the matrix is shorter than `R_ij`. -/
def collectOuter (e : GEdge) : List (List Route) → List (List RExpr) → Except String (List RExpr)
  | [], _ => Except.ok []
  | routes :: restR, fRs =>
    match fRs with
    | [] => Except.error "IndexError: f_R_vars"
    | row :: restRows => do
      let hd ← collectInner e routes row
      let tl ← collectOuter e restR restRows
      Except.ok (hd ++ tl)

/-- Assertions `addC1C2Constraints` emits for one edge, in order: the
edge-flow definition (`f_e == 0`, or `f_e == Sum S_e` only when that sum is
a Z3 expression), then `f_e >= 0`, `f_e <= capacity` (default 500), then
`price >= 5` when the price is symbolic. -/
def edgeC1C2 (e : GEdge) (R : List (List Route)) (fR : List (List RExpr)) :
    Except String (List BExpr) := do
  let fe ← require e.data.f_e "KeyError: f_e"
  let sums ← collectOuter e R fR
  let c1 : List BExpr :=
    if sums.isEmpty then [.eq fe (.const 0)]
    else if isExpr (z3Sum sums) then [.eq fe (z3Sum sums)] else []
  let cap : RExpr := match e.data.capacity with | some c => .const c | none => .const 500
  let pr ← require e.data.price "KeyError: price"
  let c3 : List BExpr := if isExpr pr then [.ge pr (.const 5)] else []
  Except.ok (c1 ++ [.ge fe (.const 0), .le fe cap] ++ c3)

/-- Edge loop of `addC1C2Constraints`. -/
def c1c2Go (R : List (List Route)) (fR : List (List RExpr)) :
    List GEdge → Except String (List BExpr)
  | [] => Except.ok []
  | e :: rest => do
    let hd ← edgeC1C2 e R fR
    let tl ← c1c2Go R fR rest
    Except.ok (hd ++ tl)

/-- `addC1C2Constraints(graph, R_ij, f_R_vars, solver)`: the emitted
assertion list (edge by edge, in graph order). -/
def addC1C2Constraints (g : Graph) (R : List (List Route)) (fR : List (List RExpr)) :
    Except String (List BExpr) := c1c2Go R fR g.edges

/-- Wardrop assertions of `addC3C4Constraints` for one demand's routes,
walked in lockstep with the route-flow row (`f_R_i_vars[j]` is read for
every `j`).  `TOLERANCE_FLOW = 1`, `TOLERANCE_COST = 5`. -/
def c3c4Inner (g : Graph) (Ti : RExpr) : List Route → List RExpr → Except String (List BExpr)
  | [], _ => Except.ok []
  | r :: rest, row => do
    let fRj ← match row with
      | [] => Except.error "IndexError: f_R"
      | x :: _ => Except.ok x
    let cost ← compute_route_cost g r
    let price ← compute_route_price g r
    let tl ← c3c4Inner g Ti rest row.tail
    Except.ok
      (.implies (.ge fRj (.const 1))
          (.and2 (.le cost (.add Ti (.const 5))) (.ge cost (.sub Ti (.const 5)))) ::
       .implies (.le fRj (.const 1))
          (.and1 (.ge price (.sub Ti (.const 5)))) :: tl)

/-- Outer demand loop of `addC3C4Constraints`: demands whose endpoints are
missing from the graph are skipped before any indexing happens. -/
def c3c4Outer (g : Graph) : Nat → List Demand → List (List Route) → List (List RExpr) →
    Except String (List BExpr)
  | _, [], _, _ => Except.ok []
  | i, dm :: rest, R, fR =>
    if dm.s ∈ nodes g ∧ dm.t ∈ nodes g then do
      let row ← require (fR.get? i) "IndexError: f_R_vars"
      let routes ← require (R.get? i) "IndexError: R_ij"
      let inner ← c3c4Inner g (.var ("T_" ++ toString i)) routes row
      let tl ← c3c4Outer g (i + 1) rest R fR
      Except.ok (.eq (z3Sum row) (.const dm.d) :: inner ++ tl)
    else c3c4Outer g (i + 1) rest R fR

/-- `addC3C4Constraints(graph, R_ij, f_R_vars, demands, solver)`. -/
def addC3C4Constraints (g : Graph) (R : List (List Route)) (fR : List (List RExpr))
    (demands : List Demand) : Except String (List BExpr) :=
  c3c4Outer g 0 demands R fR

/-- `addConstraints`: C1/C2, then C3/C4/C5, then `f_R >= 0` for every
route-flow entry. -/
def addConstraints (g : Graph) (R : List (List Route)) (fR : List (List RExpr))
    (demands : List Demand) : Except String (List BExpr) := do
  let a ← addC1C2Constraints g R fR
  let b ← addC3C4Constraints g R fR demands
  Except.ok (a ++ b ++ fR.flatMap (fun row => row.map (fun x => BExpr.ge x (.const 0))))

/-- Inner loop of `getObjectiveExpr`: `f_R * cost_R` per route. -/
def objInner (g : Graph) : List Route → List RExpr → Except String (List RExpr)
  | [], _ => Except.ok []
  | r :: rest, row => do
    let fRj ← match row with
      | [] => Except.error "IndexError: f_R"
      | x :: _ => Except.ok x
    let cost ← compute_route_cost g r
    let tl ← objInner g rest row.tail
    Except.ok (mkMulPy fRj cost :: tl)

/-- Outer loop of `getObjectiveExpr`. -/
def objOuter (g : Graph) : List (List Route) → List (List RExpr) → Except String (List RExpr)
  | [], _ => Except.ok []
  | routes :: restR, fRs =>
    match fRs with
    | [] => Except.error "IndexError: f_R_vars"
    | row :: restRows => do
      let a ← objInner g routes row
      let b ← objOuter g restR restRows
      Except.ok (a ++ b)

/-- `getObjectiveExpr(graph, R_ij, f_R_vars)`: `Sum` of all
`f_R * cost_R` terms. -/
def getObjectiveExpr (g : Graph) (R : List (List Route)) (fR : List (List RExpr)) :
    Except String RExpr := do
  let terms ← objOuter g R fR
  Except.ok (z3Sum terms)

/-! ## The descending-price pre-assignment (strategy S2, `setPricesHighToLow`) -/

/-- One iteration of the pre-assignment loop: if every route price of the
demand is fully numeric, replace the route-flow row by the concrete
cost-proportional split `(route_price / total) * d_i`; a zero total raises
`ZeroDivisionError` exactly as Python float division does. -/
def preassignRow (g : Graph) (demands : List Demand) (i : Nat) (routes : List Route)
    (row : List RExpr) : Except String (List RExpr) := do
  let prices ← exMapM (compute_route_price g) routes
  if prices.any isExpr then Except.ok row
  else if prices.isEmpty then Except.ok []
  else
    let total := (prices.map toNum).sum
    if total = 0 then Except.error "ZeroDivisionError"
    else do
      let dm ← require (demands.get? i) "IndexError: demands"
      Except.ok (prices.map (fun p => RExpr.const (toNum p / total * dm.d)))

/-- The pre-assignment pass over all demands (`f_R_vars[i] = ...`);
writing past the end of `f_R_vars` raises `IndexError`, but a demand that
is skipped for having a symbolic route price never touches the matrix. -/
def preassign (g : Graph) (demands : List Demand) :
    Nat → List (List Route) → List (List RExpr) → Except String (List (List RExpr))
  | _, [], fRs => Except.ok fRs
  | i, routes :: restR, fRs =>
    match fRs with
    | row :: restRows => do
      let row' ← preassignRow g demands i routes row
      let rest' ← preassign g demands (i + 1) restR restRows
      Except.ok (row' :: rest')
    | [] => do
      let prices ← exMapM (compute_route_price g) routes
      if prices.any isExpr then preassign g demands (i + 1) restR []
      else if prices.isEmpty then Except.error "IndexError: f_R_vars"
      else
        let total := (prices.map toNum).sum
        if total = 0 then Except.error "ZeroDivisionError"
        else Except.error "IndexError: f_R_vars"

/-! ## Solver abstraction and the five strategies (`solveStrategy.py`) -/

/-- A satisfying assignment: values for the Z3 variables. -/
def Model : Type := String → ℚ

/-- Evaluate an expression under a model (`model.evaluate`). -/
def evalR (m : Model) : RExpr → ℚ
  | .const q => q
  | .var s => m s
  | .add a b => evalR m a + evalR m b
  | .sub a b => evalR m a - evalR m b
  | .mul a b => evalR m a * evalR m b

/-- The Z3 solver's assertion state: a stack of assertion frames, head =
innermost frame. -/
structure SolverState where
  frames : List (List BExpr)
deriving DecidableEq, Repr

/-- `solver.push()`. -/
def sPush (s : SolverState) : SolverState := ⟨[] :: s.frames⟩

/-- `solver.pop()`. -/
def sPop (s : SolverState) : SolverState := ⟨s.frames.tail⟩

/-- `solver.add(c)`: append to the innermost frame. -/
def sAdd (c : BExpr) (s : SolverState) : SolverState :=
  match s.frames with
  | [] => ⟨[[c]]⟩
  | f :: rest => ⟨(f ++ [c]) :: rest⟩

/-- Add a list of assertions in order. -/
def sAddAll (cs : List BExpr) (s : SolverState) : SolverState :=
  cs.foldl (fun st c => sAdd c st) s

/-- All live assertions. -/
def sAssertions (s : SolverState) : List BExpr := s.frames.flatten

/-- The SMT backend, abstracted: `check` decides satisfiability of the
current assertions, `model` produces the satisfying assignment reported on
`sat`.  Both are functions of the assertion set, matching a deterministic
solver run. -/
structure Oracle where
  check : List BExpr → Bool
  model : List BExpr → Model

/-- Result of a strategy: `(model, solved)`. -/
abbrev StratResult := Option Model × Bool

/-- S1, `optimizeObjective`: push a frame, add the constraints and the
minimization objective, check once, pop on both exits. -/
def optimizeObjective (g : Graph) (R : List (List Route)) (fR : List (List RExpr))
    (demands : List Demand) (o : Oracle) (s : SolverState) :
    Except String (StratResult × Graph × SolverState) := do
  let s1 := sPush s
  let cs ← addConstraints g R fR demands
  let s2 := sAddAll cs s1
  let _obj ← getObjectiveExpr g R fR
  if o.check (sAssertions s2) then
    Except.ok ((some (o.model (sAssertions s2)), true), g, sPop s2)
  else
    Except.ok ((none, false), g, sPop s2)

/-- Apply a per-edge attribute update to every edge (the in-place loops
`for u, v, data in graph.edges(...)` of the strategies). -/
def mapEdges (phi : EdgeData → EdgeData) (g : Graph) : Graph :=
  ⟨g.edges.map (fun e => { e with data := phi e.data })⟩

/-- Substitute a symbolic price by the probe price `p`
(`if 'price' in data and is_expr(data['price'])`). -/
def updPriceData (p : ℚ) (d : EdgeData) : EdgeData :=
  match d.price with
  | some pr => if isExpr pr then { d with price := some (.const p) } else d
  | none => d

/-- The graph copy used inside S2's loop: every symbolic price replaced by
the probe price `p` (`graph.copy()` gives fresh edge dicts, so the
original graph is untouched). -/
def updatePricesCopy (g : Graph) (p : ℚ) : Graph :=
  mapEdges (updPriceData p) g

/-- S2's final per-edge write-back of the last successful price and the
model's `f_e` value. -/
def finalData (m : Model) (price : ℚ) (d : EdgeData) : EdgeData :=
  let d1 :=
    match d.price with
    | some pr => if isExpr pr then { d with price := some (.const price) } else d
    | none => d
  match d1.f_e with
  | some fe => if isExpr fe then { d1 with f_e := some (.const (evalR m fe)) } else d1
  | none => d1

/-- S2's final write-back: substitute the last successful price into the
canonical graph's symbolic prices and evaluate symbolic `f_e` under the
model. -/
def finalUpdateS2 (g : Graph) (m : Model) (price : ℚ) : Graph :=
  mapEdges (finalData m price) g

/-- The descending-price probe loop of S2: `while isSat == sat and
p_current >= P_MIN`, one push/pop per iteration, recording the last price
that produced a model.  `fuel` only bounds the recursion; the loop itself
stops at `P_MIN = 5` (from `P_MAX = 120` in steps of `P_DELTA = 5`). -/
def s2Loop (g : Graph) (R : List (List Route)) (fR : List (List RExpr))
    (demands : List Demand) (o : Oracle) (withObj : Bool) :
    Nat → ℚ → SolverState → Option Model → Option ℚ →
    Except String (Option Model × Option ℚ × SolverState)
  | 0, _, s, m, lsp => Except.ok (m, lsp, s)
  | Nat.succ fuel, p, s, m, lsp =>
    if p < 5 then Except.ok (m, lsp, s)
    else
      match addConstraints (updatePricesCopy g p) R fR demands with
      | .error e => .error e
      | .ok cs =>
        match (if withObj then getObjectiveExpr (updatePricesCopy g p) R fR
               else Except.ok (.const 0)) with
        | .error e => .error e
        | .ok _ =>
          if o.check (sAssertions (sAddAll cs (sPush s))) then
            s2Loop g R fR demands o withObj fuel (p - 5) (sPop (sAddAll cs (sPush s)))
              (some (o.model (sAssertions (sAddAll cs (sPush s))))) (some p)
          else
            Except.ok (m, lsp, sPop (sAddAll cs (sPush s)))

/-- S2/S3, `setPricesHighToLow`: pre-assign numeric route-flow splits,
probe prices from `P_MAX = 120` down, and on success write the last
successful price and the model's flows back into the graph. -/
def setPricesHighToLow (g : Graph) (R : List (List Route)) (fR : List (List RExpr))
    (demands : List Demand) (o : Oracle) (withObj : Bool) (s : SolverState) :
    Except String (StratResult × Graph × SolverState) := do
  let fR' ← preassign g demands 0 R fR
  let out ← s2Loop g R fR' demands o withObj 100 120 s none none
  match out.1, out.2.1 with
  | some mm, some price => Except.ok ((some mm, true), finalUpdateS2 g mm price, out.2.2)
  | m, _ => Except.ok ((m, false), g, out.2.2)

/-- Set every edge's capacity to `c` (S4's per-iteration mutation). -/
def setCapAll (g : Graph) (c : ℚ) : Graph :=
  mapEdges (fun d => { d with capacity := some c }) g

/-- S4's loop: 6 bisection steps on `[C_MIN, C_MAX] = [500, 5000]`, each
running S1 at the midpoint capacity; reports the last iteration's
outcome. -/
def bsLoop (R : List (List Route)) (fR : List (List RExpr)) (demands : List Demand)
    (o : Oracle) : Nat → ℤ → ℤ → Graph → StratResult → SolverState →
    Except String (StratResult × Graph × SolverState)
  | 0, _, _, g, res, s => Except.ok (res, g, s)
  | Nat.succ fuel, cmin, cmax, g, _, s => do
    let c : ℤ := (cmin + cmax) / 2
    let g1 := setCapAll g (c : ℚ)
    let out ← optimizeObjective g1 R fR demands o s
    if out.1.2 then bsLoop R fR demands o fuel cmin c out.2.1 out.1 out.2.2
    else bsLoop R fR demands o fuel c cmax out.2.1 out.1 out.2.2

/-- S4, `binarySearchCapacity`. -/
def binarySearchCapacity (g : Graph) (R : List (List Route)) (fR : List (List RExpr))
    (demands : List Demand) (o : Oracle) (s : SolverState) :
    Except String (StratResult × Graph × SolverState) :=
  bsLoop R fR demands o 6 500 5000 g (none, false) s

/-- S5's per-iteration mutation: `data["capacity"] += C_Delta`, raising
`KeyError` when an edge has no capacity attribute. -/
def bumpCaps (g : Graph) (delta : ℚ) : Except String Graph := do
  let es ← exMapM (fun e =>
    match e.data.capacity with
    | some c => Except.ok { e with data := { e.data with capacity := some (c + delta) } }
    | none => Except.error "KeyError: capacity") g.edges
  Except.ok ⟨es⟩

/-- S5's loop: up to 10 rounds of capacity inflation by `C_Delta = 50`,
stopping at the first SAT. -/
def incLoop (R : List (List Route)) (fR : List (List RExpr)) (demands : List Demand)
    (o : Oracle) : Nat → Graph → StratResult → SolverState →
    Except String (StratResult × Graph × SolverState)
  | 0, g, res, s => Except.ok (res, g, s)
  | Nat.succ fuel, g, _, s => do
    let g1 ← bumpCaps g 50
    let out ← optimizeObjective g1 R fR demands o s
    if out.1.2 then Except.ok (out.1, out.2.1, out.2.2)
    else incLoop R fR demands o fuel out.2.1 out.1 out.2.2

/-- S5, `increaseCapacity`. -/
def increaseCapacity (g : Graph) (R : List (List Route)) (fR : List (List RExpr))
    (demands : List Demand) (o : Oracle) (s : SolverState) :
    Except String (StratResult × Graph × SolverState) :=
  incLoop R fR demands o 10 g (none, false) s

/-- The `Strategy` enum of `solveStrategy.py`. -/
inductive StratName where
  | optimize
  | highToLow
  | highToLowWO
  | bsCapacity
  | incCapacity
deriving DecidableEq, Repr

/-- Dispatch a strategy by name (the uniform strategy signature). -/
def runStrategy : StratName → Graph → List (List Route) → List (List RExpr) →
    List Demand → Oracle → SolverState →
    Except String (StratResult × Graph × SolverState)
  | .optimize => fun g R fR ds o s => optimizeObjective g R fR ds o s
  | .highToLow => fun g R fR ds o s => setPricesHighToLow g R fR ds o false s
  | .highToLowWO => fun g R fR ds o s => setPricesHighToLow g R fR ds o true s
  | .bsCapacity => fun g R fR ds o s => binarySearchCapacity g R fR ds o s
  | .incCapacity => fun g R fR ds o s => increaseCapacity g R fR ds o s

/-- Is the computation a raised exception? -/
def isErr {α : Type} : Except String α → Bool
  | .error _ => true
  | .ok _ => false

/-! ## Graph file parsing and writing (`graphParser.py`)

`nx.generate_edgelist(data=True)` and `nx.parse_edgelist` serialize an
edge to the textual line `"<u> <v> <attr dict literal>"` and back; that
textual pairing is external library code and is modelled (per the spec's
description of the file format) as the identity on `(u, v, attrs)`
triples, so an edge-list line is the triple itself. -/

/-- An attribute value as it can appear in an edge attribute dictionary:
a number, a string, a Z3 expression (only in in-memory graphs), or
`None`/`null`. -/
inductive AVal where
  | num (q : ℚ)
  | str (s : String)
  | sym (name : String)
  | null
deriving DecidableEq, Repr

/-- `is_expr` on attribute values. -/
def isSymA : AVal → Bool
  | .sym _ => true
  | _ => false

/-- Python truthiness test `not d.get(key)` (missing, `None`, `0` and `""`
are falsy; Z3 expressions are truthy). -/
def avalFalsy : Option AVal → Bool
  | none => true
  | some .null => true
  | some (.num q) => q = 0
  | some (.str s) => s = ""
  | some (.sym _) => false

/-- An attribute dictionary: keys in insertion order. -/
abbrev Attrs := List (String × AVal)

/-- `d.get(key)`. -/
def attrsGet (a : Attrs) (key : String) : Option AVal :=
  (a.find? (fun p => p.1 = key)).map (·.2)

/-- `d[key] = v` (update in place, or append a new key). -/
def attrsSet (a : Attrs) (key : String) (v : AVal) : Attrs :=
  if (a.find? (fun p => p.1 = key)).isSome then
    a.map (fun p => if p.1 = key then (key, v) else p)
  else a ++ [(key, v)]

/-- A parsed edge: endpoints plus its attribute dictionary. -/
structure PEdge where
  u : String
  v : String
  attrs : Attrs
deriving DecidableEq, Repr

/-- The parse-level multigraph: its edges with attributes. -/
abbrev PGraph := List PEdge

/-- One entry of the JSON `networks` list. -/
structure PNetwork where
  name : String
  edge_list : List PEdge
deriving DecidableEq, Repr

/-- The JSON input file to the level `parseGraph` depends on. -/
structure InputFile where
  kmap : Option (List (String × ℚ))
  networks : Option (List PNetwork)
  demandsJ : Option (List Demand)
deriving DecidableEq, Repr

/-- The `k`-backfill `parseGraph` performs on one edge: when the edge's
`k` is falsy, `data.get("k")[edge_data.get("color")]` is read (raising
`TypeError` when the file has no `k` map and `KeyError` when the color is
missing from it). -/
def backfillK (f : InputFile) (e : PEdge) : Except String PEdge :=
  if avalFalsy (attrsGet e.attrs "k") then do
    let km ← require f.kmap "TypeError: NoneType is not subscriptable"
    let colorKey ← match attrsGet e.attrs "color" with
      | some (.str c) => Except.ok c
      | some _ => Except.error "KeyError: color value"
      | none => Except.error "KeyError: None"
    let kv ← require ((km.find? (fun p => p.1 = colorKey)).map (·.2)) "KeyError: color"
    Except.ok { e with attrs := attrsSet e.attrs "k" (.num kv) }
  else Except.ok e

/-- `parseGraph(inputfile, includeDemands=True)`: concatenate the
edge lists of all networks, build the multigraph, backfill `k` from the
color map, and return the graph with the file's demands. -/
def parseGraph (f : InputFile) : Except String (PGraph × Option (List Demand)) := do
  let nets ← require f.networks "TypeError: NoneType is not iterable"
  let edges := nets.flatMap (·.edge_list)
  let edges' ← exMapM (backfillK f) edges
  Except.ok (edges', f.demandsJ)

/-- `clean_attributes`: replace Z3 expression values by `None`. -/
def cleanVal : AVal → AVal
  | .sym _ => .null
  | v => v

/-- The cleaned copy of one edge written by `writeGraphToJSON`. -/
def cleanEdge (e : PEdge) : PEdge :=
  { e with attrs := e.attrs.map (fun p => (p.1, cleanVal p.2)) }

/-- `writeGraphToJSON(graph, outputfile)`: the JSON file written — a
single `Combined` network holding the cleaned edge list, with no `k` map
and no demands. -/
def writeGraphToJSON (g : PGraph) : InputFile :=
  { kmap := none,
    networks := some [{ name := "Combined", edge_list := g.map cleanEdge }],
    demandsJ := none }

/-! ## Basic facts about the enumerator fold -/

/-- The enumerator emits one route list per demand. -/
theorem garGo_length (sel : List (List String) → List (List String)) (mh : Nat) :
    ∀ (ds : List Demand) (g : Graph), ((garGo sel mh g ds).2).length = ds.length := by
  intro ds
  induction ds with
  | nil => intro g; rfl
  | cons dm rest ih => intro g; simp [garGo, ih]

/-- Splitting the enumerator fold over list concatenation. -/
theorem garGo_append (sel : List (List String) → List (List String)) (mh : Nat) :
    ∀ (l1 l2 : List Demand) (g : Graph),
      (garGo sel mh g (l1 ++ l2)).1 = (garGo sel mh (garGo sel mh g l1).1 l2).1 := by
  intro l1
  induction l1 with
  | nil => intro l2 g; rfl
  | cons dm rest ih => intro l2 g; simp [garGo, ih]

/-- The `i`-th route list is the loop body applied to the graph state
after the first `i` demands. -/
theorem garGo_get (sel : List (List String) → List (List String)) (mh : Nat) :
    ∀ (ds : List Demand) (g : Graph) (i : Nat),
      ((garGo sel mh g ds).2).get? i =
        (ds.get? i).map (fun dm => (routesForSel sel mh (graphAt sel mh g ds i) dm).2) := by
  intro ds
  induction ds with
  | nil => intro g i; rfl
  | cons dm rest ih =>
    intro g i
    cases i with
    | zero => rfl
    | succ j =>
      simp only [garGo, List.get?_cons_succ, ih]
      rfl

/-- Unfolding `graphAt` one step past index `i`. -/
theorem graphAt_succ (sel : List (List String) → List (List String)) (mh : Nat) :
    ∀ (ds : List Demand) (g : Graph) (i : Nat) (dm : Demand), ds.get? i = some dm →
      graphAt sel mh g ds (i + 1) =
        (routesForSel sel mh (graphAt sel mh g ds i) dm).1 := by
  intro ds
  induction ds with
  | nil => intro g i dm h; simp at h
  | cons d0 rest ih =>
    intro g i dm h
    cases i with
    | zero =>
      simp at h
      subst h
      rfl
    | succ j =>
      rw [List.get?_cons_succ] at h
      have := ih (routesForSel sel mh g d0).1 j dm h
      simpa [graphAt, garGo] using this

/-- The loop body when an endpoint of the demand is missing from the
graph: the synthetic personal edge is added and becomes the only route. -/
theorem routesForSel_absent (sel : List (List String) → List (List String)) (mh : Nat)
    (g : Graph) (dm : Demand) (h : ¬(dm.s ∈ nodes g ∧ dm.t ∈ nodes g)) :
    routesForSel sel mh g dm =
      (⟨g.edges ++ [⟨dm.s, dm.t, autoKey dm, autoEdgeData⟩]⟩, [[(dm.s, dm.t, autoKey dm)]]) := by
  simp [routesForSel, h]

/-- The loop body when the endpoints are present but no simple path
exists. -/
theorem routesForSel_noPath (sel : List (List String) → List (List String)) (mh : Nat)
    (g : Graph) (dm : Demand) (hm : dm.s ∈ nodes g ∧ dm.t ∈ nodes g)
    (hp : simplePaths g dm.s dm.t mh = []) :
    routesForSel sel mh g dm =
      (⟨g.edges ++ [⟨dm.s, dm.t, autoKey dm, autoEdgeData⟩]⟩, [[(dm.s, dm.t, autoKey dm)]]) := by
  simp [routesForSel, hm, hp]

/-- The loop body when a simple path exists: min-length pruning, `sel`
deduplication, Cartesian-product expansion and truncation to 6 routes. -/
theorem routesForSel_present (sel : List (List String) → List (List String)) (mh : Nat)
    (g : Graph) (dm : Demand) (hm : dm.s ∈ nodes g ∧ dm.t ∈ nodes g)
    (hp : simplePaths g dm.s dm.t mh ≠ []) :
    routesForSel sel mh g dm =
      (g, ((sel ((simplePaths g dm.s dm.t mh).filter
          (fun p => p.length = listMin ((simplePaths g dm.s dm.t mh).map List.length)))).flatMap
          (expandPath g)).take 6) := by
  simp only [routesForSel, if_pos hm]
  rw [if_neg]
  simpa using hp

/-! ## Claim C2: demands with endpoints missing from the graph -/

/-- A complete edge attribute record used by concrete test instances. -/
def testData : EdgeData :=
  { color := "red", capacity := some 100, price := some (.const 5), k := 1,
    f_e := some (.var "f_A-B-red") }

/-- A one-edge graph on nodes `A`, `B`. -/
def gAB : Graph := ⟨[⟨"A", "B", "e0", testData⟩]⟩

/-- A demand between nodes `X`, `Y` absent from `gAB`. -/
def dsXY : List Demand := [⟨"X", "Y", 1⟩]

/-- Claim C2, counterexample: for the demand `X → Y` whose endpoints are
not in the graph, the enumerator does NOT silently skip the demand — it
adds the synthetic personal edge `(X, Y, auto_X_Y)` (k=1, capacity=500,
price=100, color=personal) to the graph and emits exactly one route using
it, contradicting the claim that no edge is added and no routes are
emitted. -/
theorem enumerator_absent_endpoints_counterexample :
    (getAllPossibleRoutes gAB dsXY).2 = [[[("X", "Y", "auto_X_Y")]]] ∧
    (⟨"X", "Y", "auto_X_Y", autoEdgeData⟩ : GEdge) ∈ (getAllPossibleRoutes gAB dsXY).1.edges := by
  constructor
  · rfl
  · decide

/-- Claim C2, amended: for every demand whose source or target is absent
from the (current) graph, the enumerator adds the synthetic personal edge
`(s, t, "auto_<s>_<t>")` with `k=1, capacity=500, price=100,
color=personal` and emits exactly one route consisting of that single
edge — the same fallback used when the endpoints exist but no path does. -/
theorem enumerator_absent_endpoints_amended
    (sel : List (List String) → List (List String)) (mh : Nat) (g : Graph)
    (ds : List Demand) (i : Nat) (dm : Demand) (hi : ds.get? i = some dm)
    (habs : dm.s ∉ nodes (graphAt sel mh g ds i) ∨ dm.t ∉ nodes (graphAt sel mh g ds i)) :
    ((getAllPossibleRoutesSel sel mh g ds).2.get? i = some [[(dm.s, dm.t, autoKey dm)]]) ∧
    (⟨dm.s, dm.t, autoKey dm, autoEdgeData⟩ : GEdge) ∈ (graphAt sel mh g ds (i + 1)).edges := by
  have hcond : ¬(dm.s ∈ nodes (graphAt sel mh g ds i) ∧ dm.t ∈ nodes (graphAt sel mh g ds i)) := by
    rcases habs with h | h
    · exact fun hc => h hc.1
    · exact fun hc => h hc.2
  have hbody := routesForSel_absent sel mh (graphAt sel mh g ds i) dm hcond
  constructor
  · rw [show (getAllPossibleRoutesSel sel mh g ds).2 = (garGo sel mh g ds).2 from rfl,
      garGo_get sel mh ds g i, hi]
    simp [hbody]
  · rw [graphAt_succ sel mh ds g i dm hi, hbody]
    simp

/-- Witness for the amended C2 at the concrete input `gAB`, `dsXY`. -/
theorem enumerator_absent_endpoints_amended_witness :
    ((getAllPossibleRoutesSel eraseDupsKeepFirst 4 gAB dsXY).2.get? 0 =
      some [[("X", "Y", autoKey ⟨"X", "Y", 1⟩)]]) ∧
    (⟨"X", "Y", autoKey ⟨"X", "Y", 1⟩, autoEdgeData⟩ : GEdge) ∈
      (graphAt eraseDupsKeepFirst 4 gAB dsXY 1).edges :=
  enumerator_absent_endpoints_amended eraseDupsKeepFirst 4 gAB dsXY 0 ⟨"X", "Y", 1⟩
    (by rfl) (Or.inl (by decide))

/-! ## Claim C7: determinism of the enumeration across runs -/

/-- The diamond graph whose demand `A → D` has two distinct minimum-length
node paths; the order in which Python's `set` yields them decides the
order of `R_ij`'s routes. -/
def gDiamond : Graph := ⟨[
  ⟨"A", "B", "b1", testData⟩, ⟨"A", "B", "b2", testData⟩,
  ⟨"B", "D", "d1", testData⟩, ⟨"B", "D", "d2", testData⟩,
  ⟨"A", "C", "c1", testData⟩, ⟨"C", "D", "c2", testData⟩]⟩

/-- The demand crossing the diamond. -/
def dsAD : List Demand := [⟨"A", "D", 1⟩]

/-- A second admissible iteration order of the deduplicating `set`
(Python set order over string tuples depends on hash randomization, so
any order of the deduplicated node paths can occur on a given run). -/
def setOrderRev (l : List (List String)) : List (List String) :=
  (eraseDupsKeepFirst l).reverse

/-- Claim C7, failing evidence: the enumerator's output is a function of
the iteration order of the Python `set` used to deduplicate node paths —
two admissible set orders give `R_ij` with the routes of demand `A → D`
in different orders, so two interpreter runs (with different string hash
seeds) need not produce the same ordered `R_ij`. -/
theorem enumeration_depends_on_set_order :
    (getAllPossibleRoutesSel eraseDupsKeepFirst 4 gDiamond dsAD).2 ≠
    (getAllPossibleRoutesSel setOrderRev 4 gDiamond dsAD).2 := by
  decide

/-! ## Claim C6: shortest-path pruning, deduplication, expansion, truncation -/

/-- Claim C6: for a demand whose endpoints are present and that has at
least one simple path within the hop bound, the enumerator keeps exactly
the node paths of minimum node-length, deduplicates them, expands each by
the Cartesian product over parallel edges, and truncates to at most
`MAX_ROUTES_PER_DEMAND = 6` routes. -/
theorem enumerator_prunes_and_truncates
    (g : Graph) (ds : List Demand) (mh i : Nat) (dm : Demand)
    (hi : ds.get? i = some dm)
    (hm : dm.s ∈ nodes (graphAt eraseDupsKeepFirst mh g ds i) ∧
          dm.t ∈ nodes (graphAt eraseDupsKeepFirst mh g ds i))
    (hp : simplePaths (graphAt eraseDupsKeepFirst mh g ds i) dm.s dm.t mh ≠ []) :
    ∃ Ri, (getAllPossibleRoutesSel eraseDupsKeepFirst mh g ds).2.get? i = some Ri ∧
      Ri.length ≤ 6 ∧
      Ri = ((eraseDupsKeepFirst
              ((simplePaths (graphAt eraseDupsKeepFirst mh g ds i) dm.s dm.t mh).filter
                (fun p => p.length = listMin
                  ((simplePaths (graphAt eraseDupsKeepFirst mh g ds i) dm.s dm.t mh).map
                    List.length)))).flatMap
            (expandPath (graphAt eraseDupsKeepFirst mh g ds i))).take 6 := by
  have hbody := routesForSel_present eraseDupsKeepFirst mh
    (graphAt eraseDupsKeepFirst mh g ds i) dm hm hp
  refine ⟨_, ?_, ?_, rfl⟩
  · rw [show (getAllPossibleRoutesSel eraseDupsKeepFirst mh g ds).2 =
        (garGo eraseDupsKeepFirst mh g ds).2 from rfl,
      garGo_get eraseDupsKeepFirst mh ds g i, hi]
    simp [hbody]
  · exact le_trans (List.length_take_le 6 _) (le_refl 6)

/-- Witness for C6 on the diamond graph: demand `A → D` of `gDiamond`. -/
theorem enumerator_prunes_and_truncates_witness :
    ∃ Ri, (getAllPossibleRoutesSel eraseDupsKeepFirst 4 gDiamond dsAD).2.get? 0 = some Ri ∧
      Ri.length ≤ 6 ∧
      Ri = ((eraseDupsKeepFirst
              ((simplePaths (graphAt eraseDupsKeepFirst 4 gDiamond dsAD 0) "A" "D" 4).filter
                (fun p => p.length = listMin
                  ((simplePaths (graphAt eraseDupsKeepFirst 4 gDiamond dsAD 0) "A" "D" 4).map
                    List.length)))).flatMap
            (expandPath (graphAt eraseDupsKeepFirst 4 gDiamond dsAD 0))).take 6 :=
  enumerator_prunes_and_truncates gDiamond dsAD 4 0 ⟨"A", "D", 1⟩ (by rfl)
    (by constructor <;> decide) (by decide)

/-! ## Claim C9: shape invariants of the enumerator output -/

/-- Elements produced by the deduplication come from the input list. -/
theorem mem_dedupAux {α : Type} [DecidableEq α] :
    ∀ (l seen : List α) (x : α), x ∈ dedupAux l seen → x ∈ l := by
  intro l
  induction l with
  | nil => intro seen x h; simp [dedupAux] at h
  | cons a rest ih =>
    intro seen x h
    simp only [dedupAux] at h
    by_cases ha : a ∈ seen
    · simp [ha] at h
      exact List.mem_cons_of_mem a (ih _ x h)
    · simp [ha] at h
      rcases h with h | h
      · simp [h]
      · exact List.mem_cons_of_mem a (ih _ x h)

/-- Deduplication preserves non-emptiness. -/
theorem eraseDupsKeepFirst_ne_nil {α : Type} [DecidableEq α] (a : α) (l : List α) :
    eraseDupsKeepFirst (a :: l) ≠ [] := by
  simp [eraseDupsKeepFirst, dedupAux]

/-- A neighbour really is connected by at least one parallel edge. -/
theorem parallelEdges_of_mem_neighbors (g : Graph) (u w : String)
    (h : w ∈ neighbors g u) : parallelEdges g u w ≠ [] := by
  have h1 : w ∈ g.edges.filterMap (fun e =>
      if e.u = u then some e.v else if e.v = u then some e.u else none) :=
    mem_dedupAux _ _ _ h
  rw [List.mem_filterMap] at h1
  obtain ⟨e, he, hfe⟩ := h1
  have hmem : (e.key, e.data) ∈ parallelEdges g u w := by
    rw [parallelEdges, List.mem_filterMap]
    refine ⟨e, he, ?_⟩
    by_cases h2 : e.u = u
    · simp [h2] at hfe
      simp [h2, hfe]
    · simp [h2] at hfe
      by_cases h3 : e.v = u
      · simp [h3] at hfe
        simp [h2, h3, hfe]
      · simp [h3] at hfe
  exact List.ne_nil_of_mem hmem

/-- Every path the DFS returns starts at the start node and steps only
along existing edges. -/
theorem simplePathsAux_sound (g : Graph) (t : String) :
    ∀ (fuel : Nat) (u : String) (vis : List String) (p : List String),
      p ∈ simplePathsAux g t fuel u vis →
      p.head? = some u ∧ List.Chain' (fun a b => parallelEdges g a b ≠ []) p := by
  intro fuel
  induction fuel with
  | zero =>
    intro u vis p hp
    rw [simplePathsAux] at hp
    by_cases hu : u = t
    · simp [hu] at hp
      subst hp
      exact ⟨by simp [hu], by simp⟩
    · simp [hu] at hp
  | succ f ih =>
    intro u vis p hp
    rw [simplePathsAux] at hp
    by_cases hu : u = t
    · simp [hu] at hp
      subst hp
      exact ⟨by simp [hu], by simp⟩
    · simp only [if_neg hu, List.mem_flatMap] at hp
      obtain ⟨w, hw, hpw⟩ := hp
      by_cases hv : w ∈ vis
      · simp [hv] at hpw
      · simp only [if_neg hv, List.mem_map] at hpw
        obtain ⟨q, hq, hpq⟩ := hpw
        obtain ⟨hqh, hqc⟩ := ih w (w :: vis) q hq
        subst hpq
        refine ⟨by simp, ?_⟩
        cases q with
        | nil => simp at hqh
        | cons w' q' =>
          simp at hqh
          rw [List.chain'_cons]
          refine ⟨?_, hqc⟩
          rw [hqh]
          exact parallelEdges_of_mem_neighbors g u w hw

/-- Consecutive pairs of a chained path satisfy the chain relation. -/
theorem consecPairs_chain {R : String → String → Prop} :
    ∀ (p : List String), List.Chain' R p → ∀ q ∈ consecPairs p, R q.1 q.2 := by
  intro p
  induction p with
  | nil => intro _ q hq; simp [consecPairs] at hq
  | cons a rest ih =>
    intro hc q hq
    cases rest with
    | nil => simp [consecPairs] at hq
    | cons b rest' =>
      rw [List.chain'_cons] at hc
      simp only [consecPairs, List.mem_cons] at hq
      rcases hq with hq | hq
      · subst hq; exact hc.1
      · exact ih hc.2 q hq

/-- The Cartesian product of non-empty factor lists is non-empty. -/
theorem cartProd_ne_nil {α : Type} :
    ∀ (ls : List (List α)), (∀ l ∈ ls, l ≠ []) → cartProd ls ≠ [] := by
  intro ls
  induction ls with
  | nil => intro _; simp [cartProd]
  | cons opts rest ih =>
    intro h
    have hopts : opts ≠ [] := h opts (by simp)
    have hrest : cartProd rest ≠ [] := ih (fun l hl => h l (by simp [hl]))
    obtain ⟨o, os, ho⟩ := List.exists_cons_of_ne_nil hopts
    obtain ⟨c, cs, hc⟩ := List.exists_cons_of_ne_nil hrest
    have : (o :: c) ∈ cartProd (opts :: rest) := by
      rw [cartProd, List.mem_flatMap]
      exact ⟨o, by simp [ho], by rw [List.mem_map]; exact ⟨c, by simp [hc], rfl⟩⟩
    exact List.ne_nil_of_mem this

/-- Expansion of a path along existing edges yields at least one route. -/
theorem expandPath_ne_nil (g : Graph) (p : List String)
    (hc : List.Chain' (fun a b => parallelEdges g a b ≠ []) p) :
    expandPath g p ≠ [] := by
  rw [expandPath]
  apply cartProd_ne_nil
  intro l hl
  rw [List.mem_map] at hl
  obtain ⟨q, hq, hlq⟩ := hl
  subst hlq
  have := consecPairs_chain p hc q hq
  intro hnil
  exact this (List.map_eq_nil_iff.mp hnil)

/-- A `min`-fold lands in the accumulator-extended list. -/
theorem foldl_min_mem : ∀ (rest : List Nat) (a : Nat), rest.foldl min a ∈ a :: rest := by
  intro rest
  induction rest with
  | nil => intro a; simp
  | cons b bs ih =>
    intro a
    rw [List.foldl_cons]
    rcases min_choice a b with h | h
    · rw [h]
      rcases List.mem_cons.mp (ih a) with h2 | h2
      · rw [h2]; exact List.mem_cons_self _ _
      · exact List.mem_cons_of_mem _ (List.mem_cons_of_mem _ h2)
    · rw [h]
      rcases List.mem_cons.mp (ih b) with h2 | h2
      · rw [h2]; exact List.mem_cons_of_mem _ (List.mem_cons_self _ _)
      · exact List.mem_cons_of_mem _ (List.mem_cons_of_mem _ h2)

/-- `listMin` attains its value on a non-empty list. -/
theorem listMin_mem : ∀ (l : List Nat), l ≠ [] → listMin l ∈ l := by
  intro l
  cases l with
  | nil => intro h; exact absurd rfl h
  | cons a rest => intro _; exact foldl_min_mem rest a

/-- Soundness of `simplePaths`: returned paths step along existing
edges. -/
theorem simplePaths_sound (g : Graph) (s t : String) (c : Nat) (p : List String)
    (hp : p ∈ simplePaths g s t c) :
    List.Chain' (fun a b => parallelEdges g a b ≠ []) p := by
  rw [simplePaths] at hp
  by_cases hst : s = t
  · simp [hst] at hp
  · rw [if_neg hst] at hp
    exact (simplePathsAux_sound g t c s [s] p hp).2

/-- The route list the loop body emits for any demand is non-empty and
contains at most 6 routes. -/
theorem routesForSel_shape (mh : Nat) (g : Graph) (dm : Demand) :
    (routesForSel eraseDupsKeepFirst mh g dm).2 ≠ [] ∧
    (routesForSel eraseDupsKeepFirst mh g dm).2.length ≤ 6 := by
  by_cases hm : dm.s ∈ nodes g ∧ dm.t ∈ nodes g
  · by_cases hp : simplePaths g dm.s dm.t mh = []
    · rw [routesForSel_noPath eraseDupsKeepFirst mh g dm hm hp]
      exact ⟨by simp, by simp⟩
    · rw [routesForSel_present eraseDupsKeepFirst mh g dm hm hp]
      refine ⟨?_, by simp [List.length_take_le]⟩
      set paths := simplePaths g dm.s dm.t mh with hpaths
      have hmin : listMin (paths.map List.length) ∈ paths.map List.length :=
        listMin_mem _ (by simp [hp])
      rw [List.mem_map] at hmin
      obtain ⟨p0, hp0, hl0⟩ := hmin
      have hfil : p0 ∈ paths.filter (fun p => p.length = listMin (paths.map List.length)) :=
        List.mem_filter.mpr ⟨hp0, by simp [hl0]⟩
      obtain ⟨q0, qs, hq⟩ := List.exists_cons_of_ne_nil (List.ne_nil_of_mem hfil)
      have hq0fil : q0 ∈ paths.filter (fun p => p.length = listMin (paths.map List.length)) := by
        rw [hq]; exact List.mem_cons_self _ _
      have hq0paths : q0 ∈ paths := (List.mem_filter.mp hq0fil).1
      have hchain := simplePaths_sound g dm.s dm.t mh q0 hq0paths
      have hexp : expandPath g q0 ≠ [] := expandPath_ne_nil g q0 hchain
      obtain ⟨r0, rs, hr⟩ := List.exists_cons_of_ne_nil hexp
      have hq0p : q0 ∈ eraseDupsKeepFirst (paths.filter
          (fun p => p.length = listMin (paths.map List.length))) := by
        rw [hq, eraseDupsKeepFirst, dedupAux]
        simp
      have hmemflat : r0 ∈ (eraseDupsKeepFirst (paths.filter
          (fun p => p.length = listMin (paths.map List.length)))).flatMap (expandPath g) := by
        rw [List.mem_flatMap]
        exact ⟨q0, hq0p, by rw [hr]; exact List.mem_cons_self _ _⟩
      intro hnil
      rcases List.take_eq_nil_iff.mp hnil with h6 | hflat
      · exact absurd h6 (by decide)
      · rw [hflat] at hmemflat
        simp at hmemflat
  · rw [routesForSel_absent eraseDupsKeepFirst mh g dm hm]
    exact ⟨by simp, by simp⟩

/-- Claim C9: the enumerator returns one route list per demand, every
route list is non-empty with at most 6 routes, and demands with missing
endpoints or no path get exactly the single synthetic personal route. -/
theorem enumerator_output_invariants (g : Graph) (ds : List Demand) :
    (getAllPossibleRoutes g ds).2.length = ds.length ∧
    ∀ i dm, ds.get? i = some dm →
      ∃ Ri, (getAllPossibleRoutes g ds).2.get? i = some Ri ∧ Ri ≠ [] ∧ Ri.length ≤ 6 ∧
        ((dm.s ∉ nodes (graphAt eraseDupsKeepFirst 4 g ds i) ∨
          dm.t ∉ nodes (graphAt eraseDupsKeepFirst 4 g ds i) ∨
          simplePaths (graphAt eraseDupsKeepFirst 4 g ds i) dm.s dm.t 4 = []) →
          Ri = [[(dm.s, dm.t, autoKey dm)]]) := by
  constructor
  · exact garGo_length eraseDupsKeepFirst 4 ds g
  · intro i dm hi
    refine ⟨(routesForSel eraseDupsKeepFirst 4 (graphAt eraseDupsKeepFirst 4 g ds i) dm).2,
      ?_, ?_, ?_, ?_⟩
    · rw [show (getAllPossibleRoutes g ds).2 = (garGo eraseDupsKeepFirst 4 g ds).2 from rfl,
        garGo_get eraseDupsKeepFirst 4 ds g i, hi]
      rfl
    · exact (routesForSel_shape 4 (graphAt eraseDupsKeepFirst 4 g ds i) dm).1
    · exact (routesForSel_shape 4 (graphAt eraseDupsKeepFirst 4 g ds i) dm).2
    · intro hfall
      by_cases hm : dm.s ∈ nodes (graphAt eraseDupsKeepFirst 4 g ds i) ∧
          dm.t ∈ nodes (graphAt eraseDupsKeepFirst 4 g ds i)
      · have hp : simplePaths (graphAt eraseDupsKeepFirst 4 g ds i) dm.s dm.t 4 = [] := by
          rcases hfall with h | h | h
          · exact absurd hm.1 h
          · exact absurd hm.2 h
          · exact h
        rw [routesForSel_noPath eraseDupsKeepFirst 4 _ dm hm hp]
      · rw [routesForSel_absent eraseDupsKeepFirst 4 _ dm hm]

/-- Witness for C9 at the concrete input `gAB`, `dsXY` (index 0 has its
endpoints absent, so the fallback clause is exercised). -/
theorem enumerator_output_invariants_witness :
    ∃ Ri, (getAllPossibleRoutes gAB dsXY).2.get? 0 = some Ri ∧ Ri ≠ [] ∧ Ri.length ≤ 6 ∧
      (((⟨"X", "Y", 1⟩ : Demand).s ∉ nodes (graphAt eraseDupsKeepFirst 4 gAB dsXY 0) ∨
        (⟨"X", "Y", 1⟩ : Demand).t ∉ nodes (graphAt eraseDupsKeepFirst 4 gAB dsXY 0) ∨
        simplePaths (graphAt eraseDupsKeepFirst 4 gAB dsXY 0) "X" "Y" 4 = []) →
        Ri = [[("X", "Y", autoKey ⟨"X", "Y", 1⟩)]]) :=
  (enumerator_output_invariants gAB dsXY).2 0 ⟨"X", "Y", 1⟩ (by rfl)

/-! ## Claim C3: the per-edge constraints of `addC1C2Constraints` -/

@[simp]
theorem require_some {α : Type} (a : α) (m : String) : require (some a) m = Except.ok a := rfl

@[simp]
theorem except_ok_bind {α β : Type} (a : α) (f : α → Except String β) :
    (Except.ok a >>= f) = f a := rfl

@[simp]
theorem except_error_bind {α β : Type} (m : String) (f : α → Except String β) :
    ((Except.error m : Except String α) >>= f) = Except.error m := rfl

/-- The route-flow terms incident to edge `e` (the set `S_e` of the spec):
for every demand, the flow terms of its routes that contain `e`, the route
list and flow row read in lockstep. -/
def edgeFlowTerms (e : GEdge) (R : List (List Route)) (fR : List (List RExpr)) : List RExpr :=
  (R.zip fR).flatMap (fun p =>
    (p.1.zip p.2).filterMap (fun q => if routeUsesEdge e q.1 then some q.2 else none))

/-- Claim-shaped per-edge assertion list: `f_e == 0` when no route
contains `e`; `f_e == Sum S_e` only when that sum is symbolic; always
`f_e >= 0` and `f_e <= capacity` (default 500); `price >= 5` when the
price is symbolic. -/
def edgeC1C2Spec (e : GEdge) (R : List (List Route)) (fR : List (List RExpr)) : List BExpr :=
  (if (edgeFlowTerms e R fR).isEmpty then [BExpr.eq (e.data.f_e.getD (.const 0)) (.const 0)]
   else if isExpr (z3Sum (edgeFlowTerms e R fR)) then
     [BExpr.eq (e.data.f_e.getD (.const 0)) (z3Sum (edgeFlowTerms e R fR))]
   else []) ++
  [BExpr.ge (e.data.f_e.getD (.const 0)) (.const 0),
   BExpr.le (e.data.f_e.getD (.const 0))
     (match e.data.capacity with | some c => .const c | none => .const 500)] ++
  (if isExpr (e.data.price.getD (.const 0)) then
    [BExpr.ge (e.data.price.getD (.const 0)) (.const 5)]
   else [])

/-- Claim-shaped assertion list of `addC1C2Constraints`: one block per
graph edge, in order. -/
def edgeAssertionsSpec (g : Graph) (R : List (List Route)) (fR : List (List RExpr)) :
    List BExpr :=
  g.edges.flatMap (fun e => edgeC1C2Spec e R fR)

/-- The inner lockstep scan succeeds and returns exactly the flow terms of
the routes containing the edge, provided the flow row covers the route
list. -/
theorem collectInner_ok (e : GEdge) :
    ∀ (routes : List Route) (row : List RExpr), routes.length ≤ row.length →
      collectInner e routes row = Except.ok
        ((routes.zip row).filterMap (fun q => if routeUsesEdge e q.1 then some q.2 else none)) := by
  intro routes
  induction routes with
  | nil => intro row _; rfl
  | cons r rest ih =>
    intro row hlen
    cases row with
    | nil => simp at hlen
    | cons x rowRest =>
      simp only [List.length_cons, Nat.succ_le_succ_iff] at hlen
      rw [collectInner]
      by_cases hu : routeUsesEdge e r
      · simp [hu, ih rowRest hlen]
      · simp [hu, ih rowRest hlen]

/-- The outer demand scan succeeds and returns `S_e`, provided the matrix
covers the route sets. -/
theorem collectOuter_ok (e : GEdge) :
    ∀ (Rs : List (List Route)) (fRs : List (List RExpr)), Rs.length ≤ fRs.length →
      (∀ p ∈ Rs.zip fRs, p.1.length ≤ p.2.length) →
      collectOuter e Rs fRs = Except.ok (edgeFlowTerms e Rs fRs) := by
  intro Rs
  induction Rs with
  | nil => intro fRs _ _; rfl
  | cons routes restR ih =>
    intro fRs hlen hrow
    cases fRs with
    | nil => simp at hlen
    | cons row restRows =>
      simp only [List.length_cons, Nat.succ_le_succ_iff] at hlen
      rw [collectOuter]
      rw [collectInner_ok e routes row (hrow (routes, row) (by simp))]
      rw [ih restRows hlen (fun p hp => hrow p (List.mem_cons_of_mem _ hp))]
      simp [edgeFlowTerms]

/-- One edge of `addC1C2Constraints` emits exactly the claim-shaped
block. -/
theorem edgeC1C2_ok (e : GEdge) (R : List (List Route)) (fR : List (List RExpr))
    (hfe : e.data.f_e.isSome) (hpr : e.data.price.isSome)
    (hlen : R.length ≤ fR.length) (hrow : ∀ p ∈ R.zip fR, p.1.length ≤ p.2.length) :
    edgeC1C2 e R fR = Except.ok (edgeC1C2Spec e R fR) := by
  obtain ⟨fe, hfe⟩ := Option.isSome_iff_exists.mp hfe
  obtain ⟨pr, hpr⟩ := Option.isSome_iff_exists.mp hpr
  rw [edgeC1C2, hfe, hpr]
  rw [collectOuter_ok e R fR hlen hrow]
  simp only [require_some, except_ok_bind]
  rw [edgeC1C2Spec, hfe, hpr]
  simp only [Option.getD_some]

/-- The edge loop emits the concatenated per-edge blocks. -/
theorem c1c2Go_ok (R : List (List Route)) (fR : List (List RExpr))
    (hlen : R.length ≤ fR.length) (hrow : ∀ p ∈ R.zip fR, p.1.length ≤ p.2.length) :
    ∀ l : List GEdge, (∀ e ∈ l, e.data.f_e.isSome ∧ e.data.price.isSome) →
      c1c2Go R fR l = Except.ok (l.flatMap (fun e => edgeC1C2Spec e R fR)) := by
  intro l
  induction l with
  | nil => intro _; rfl
  | cons e rest ih =>
    intro h
    rw [c1c2Go]
    rw [edgeC1C2_ok e R fR (h e (by simp)).1 (h e (by simp)).2 hlen hrow]
    rw [ih (fun e' he' => h e' (List.mem_cons_of_mem _ he'))]
    simp

/-- Claim C3: under the structural preconditions (the allocator has run,
so every edge has `f_e` and `price`, and the flow matrix covers the route
sets), `addC1C2Constraints` emits exactly, per edge: `f_e == 0` when no
enumerated route contains the edge; `f_e == Sum S_e` when some route does,
and only when that sum is a symbolic expression (a purely numeric sum is
silently skipped); always `f_e >= 0` and `f_e <= capacity` with the
default capacity 500; and `price >= 5` exactly when the edge price is
symbolic. -/
theorem addC1C2_edge_constraints (g : Graph) (R : List (List Route)) (fR : List (List RExpr))
    (hfe : ∀ e ∈ g.edges, e.data.f_e.isSome ∧ e.data.price.isSome)
    (hlen : R.length ≤ fR.length) (hrow : ∀ p ∈ R.zip fR, p.1.length ≤ p.2.length) :
    addC1C2Constraints g R fR = Except.ok (edgeAssertionsSpec g R fR) := by
  rw [addC1C2Constraints, edgeAssertionsSpec]
  exact c1c2Go_ok R fR hlen hrow g.edges hfe

/-- Witness for C3 at the concrete graph `gAB` with its single route. -/
theorem addC1C2_edge_constraints_witness :
    addC1C2Constraints gAB [[[("A", "B", "e0")]]] [[RExpr.var "flow_0_0"]] =
      Except.ok (edgeAssertionsSpec gAB [[[("A", "B", "e0")]]] [[RExpr.var "flow_0_0"]]) :=
  addC1C2_edge_constraints gAB [[[("A", "B", "e0")]]] [[RExpr.var "flow_0_0"]]
    (by decide) (by decide) (by decide)

/-! ## Claim C1: the two Wardrop implications of `addC3C4Constraints` -/

/-- Successful cost computation returns the total-ized value. -/
theorem compute_route_cost_eq (g : Graph) (r : Route)
    (h : isErr (compute_route_cost g r) = false) :
    compute_route_cost g r = Except.ok (routeCostD g r) := by
  cases hh : compute_route_cost g r with
  | error m => rw [hh] at h; simp [isErr] at h
  | ok c => rw [routeCostD, hh]

/-- Successful price computation returns the total-ized value. -/
theorem compute_route_price_eq (g : Graph) (r : Route)
    (h : isErr (compute_route_price g r) = false) :
    compute_route_price g r = Except.ok (routePriceD g r) := by
  cases hh : compute_route_price g r with
  | error m => rw [hh] at h; simp [isErr] at h
  | ok c => rw [routePriceD, hh]

/-- `l.getD i []` from a successful `get?`. -/
theorem getD_of_get? {α : Type} (l : List α) (i : Nat) (x : α) (d : α)
    (h : l.get? i = some x) : l.getD i d = x := by
  rw [List.getD_eq_getElem?_getD, ← List.get?_eq_getElem?, h]
  rfl

/-- Claim-shaped C4 implication: `flow_i_j >= 1` (TOL_FLOW) implies the
route cost lies within `TOL_COST = 5` of the demand's minimum cost
`T_i`. -/
def wardropC4 (g : Graph) (i : Nat) (r : Route) (fRj : RExpr) : BExpr :=
  .implies (.ge fRj (.const 1))
    (.and2 (.le (routeCostD g r) (.add (.var ("T_" ++ toString i)) (.const 5)))
           (.ge (routeCostD g r) (.sub (.var ("T_" ++ toString i)) (.const 5))))

/-- Claim-shaped C5 implication: `flow_i_j <= 1` implies the route price
is at least `T_i - 5`. -/
def wardropC5 (g : Graph) (i : Nat) (r : Route) (fRj : RExpr) : BExpr :=
  .implies (.le fRj (.const 1))
    (.and1 (.ge (routePriceD g r) (.sub (.var ("T_" ++ toString i)) (.const 5))))

/-- Claim-shaped assertion list of `addC3C4Constraints` from demand index
`i` on: skipped demands contribute nothing; every other demand contributes
its conservation equation followed by exactly the two Wardrop implications
per route. -/
def wardropFrom (g : Graph) (R : List (List Route)) (fR : List (List RExpr)) :
    Nat → List Demand → List BExpr
  | _, [] => []
  | i, dm :: rest =>
    (if dm.s ∈ nodes g ∧ dm.t ∈ nodes g then
      BExpr.eq (z3Sum (fR.getD i [])) (.const dm.d) ::
        ((R.getD i []).zip (fR.getD i [])).flatMap
          (fun p => [wardropC4 g i p.1 p.2, wardropC5 g i p.1 p.2])
     else []) ++ wardropFrom g R fR (i + 1) rest

/-- Claim-shaped assertion list of `addC3C4Constraints`. -/
def wardropAssertionsSpec (g : Graph) (R : List (List Route)) (fR : List (List RExpr))
    (ds : List Demand) : List BExpr :=
  wardropFrom g R fR 0 ds

/-- The inner route loop emits exactly the two implications per route. -/
theorem c3c4Inner_ok (g : Graph) (Ti : RExpr) :
    ∀ (routes : List Route) (row : List RExpr), routes.length ≤ row.length →
      (∀ r ∈ routes, isErr (compute_route_cost g r) = false ∧
        isErr (compute_route_price g r) = false) →
      c3c4Inner g Ti routes row = Except.ok ((routes.zip row).flatMap (fun p =>
        [.implies (.ge p.2 (.const 1))
            (.and2 (.le (routeCostD g p.1) (.add Ti (.const 5)))
                   (.ge (routeCostD g p.1) (.sub Ti (.const 5)))),
         .implies (.le p.2 (.const 1))
            (.and1 (.ge (routePriceD g p.1) (.sub Ti (.const 5))))])) := by
  intro routes
  induction routes with
  | nil => intro row _ _; rfl
  | cons r rest ih =>
    intro row hlen hok
    cases row with
    | nil => simp at hlen
    | cons x rowRest =>
      simp only [List.length_cons, Nat.succ_le_succ_iff] at hlen
      rw [c3c4Inner]
      rw [compute_route_cost_eq g r (hok r (by simp)).1,
        compute_route_price_eq g r (hok r (by simp)).2]
      simp only [List.tail_cons]
      rw [ih rowRest hlen (fun r' hr' => hok r' (List.mem_cons_of_mem _ hr'))]
      simp

/-- The outer demand loop emits the claim-shaped list from any start
index. -/
theorem c3c4Outer_ok (g : Graph) (R : List (List Route)) (fR : List (List RExpr)) :
    ∀ (ds : List Demand) (i0 : Nat),
      (∀ k dm, ds.get? k = some dm → (dm.s ∈ nodes g ∧ dm.t ∈ nodes g) →
        ∃ routes row, R.get? (i0 + k) = some routes ∧ fR.get? (i0 + k) = some row ∧
          routes.length ≤ row.length ∧
          ∀ r ∈ routes, isErr (compute_route_cost g r) = false ∧
            isErr (compute_route_price g r) = false) →
      c3c4Outer g i0 ds R fR = Except.ok (wardropFrom g R fR i0 ds) := by
  intro ds
  induction ds with
  | nil => intro i0 _; rfl
  | cons dm rest ih =>
    intro i0 h
    rw [c3c4Outer, wardropFrom]
    by_cases hm : dm.s ∈ nodes g ∧ dm.t ∈ nodes g
    · obtain ⟨routes, row, hR, hfR, hlen, hok⟩ := h 0 dm (by rfl) hm
      rw [if_pos hm, if_pos hm]
      rw [Nat.add_zero] at hR hfR
      rw [hfR, hR]
      simp only [require_some, except_ok_bind]
      rw [c3c4Inner_ok g (.var ("T_" ++ toString i0)) routes row hlen hok]
      have hrest := ih (i0 + 1) (fun k dm' hk hm' => by
        obtain ⟨a, b, h1, h2, h3, h4⟩ := h (k + 1) dm' (by simpa using hk) hm'
        exact ⟨a, b, by rw [show i0 + 1 + k = i0 + (k + 1) from by omega]; exact h1,
          by rw [show i0 + 1 + k = i0 + (k + 1) from by omega]; exact h2, h3, h4⟩)
      rw [hrest]
      simp only [except_ok_bind]
      rw [getD_of_get? fR i0 row [] hfR, getD_of_get? R i0 routes [] hR]
      simp [wardropC4, wardropC5]
    · rw [if_neg hm, if_neg hm]
      have hrest := ih (i0 + 1) (fun k dm' hk hm' => by
        obtain ⟨a, b, h1, h2, h3, h4⟩ := h (k + 1) dm' (by simpa using hk) hm'
        exact ⟨a, b, by rw [show i0 + 1 + k = i0 + (k + 1) from by omega]; exact h1,
          by rw [show i0 + 1 + k = i0 + (k + 1) from by omega]; exact h2, h3, h4⟩)
      rw [hrest]
      simp

/-- Claim C1: for every demand whose endpoints are both in the graph,
`addC3C4Constraints` asserts, per route `j`, exactly the two Wardrop
implications with `TOL_FLOW = 1` and `TOL_COST = 5`:
`flow_i_j >= 1  ==>  cost_R <= T_i + 5  and  cost_R >= T_i - 5`, and
`flow_i_j <= 1  ==>  price_R >= T_i - 5`, where `cost_R` sums
`k*f_e + price` and `price_R` sums `price` over the route's edges —
preceded only by the demand-conservation equation `Sum(flows) == d_i`;
demands with a missing endpoint contribute nothing. -/
theorem addC3C4_wardrop_implications (g : Graph) (R : List (List Route))
    (fR : List (List RExpr)) (ds : List Demand)
    (h : ∀ i dm, ds.get? i = some dm → (dm.s ∈ nodes g ∧ dm.t ∈ nodes g) →
      ∃ routes row, R.get? i = some routes ∧ fR.get? i = some row ∧
        routes.length ≤ row.length ∧
        ∀ r ∈ routes, isErr (compute_route_cost g r) = false ∧
          isErr (compute_route_price g r) = false) :
    addC3C4Constraints g R fR ds = Except.ok (wardropAssertionsSpec g R fR ds) := by
  rw [addC3C4Constraints, wardropAssertionsSpec]
  exact c3c4Outer_ok g R fR ds 0 (fun k dm hk hm => by
    obtain ⟨a, b, h1, h2, h3, h4⟩ := h k dm hk hm
    exact ⟨a, b, by simpa using h1, by simpa using h2, h3, h4⟩)

/-- Witness for C1 at the concrete instance `gAB` with one demand and one
route. -/
theorem addC3C4_wardrop_implications_witness :
    addC3C4Constraints gAB [[[("A", "B", "e0")]]] [[RExpr.var "flow_0_0"]] [⟨"A", "B", 10⟩] =
      Except.ok (wardropAssertionsSpec gAB [[[("A", "B", "e0")]]] [[RExpr.var "flow_0_0"]]
        [⟨"A", "B", 10⟩]) :=
  addC3C4_wardrop_implications gAB [[[("A", "B", "e0")]]] [[RExpr.var "flow_0_0"]]
    [⟨"A", "B", 10⟩] (by
      intro i dm hi hm
      cases i with
      | zero =>
        refine ⟨[[("A", "B", "e0")]], [RExpr.var "flow_0_0"], rfl, rfl, by decide, ?_⟩
        decide
      | succ n => simp at hi)

/-! ## Claim C4: S2's cost-proportional pre-assignment -/

/-- A pre-assignment pass over an exhausted flow matrix leaves it
exhausted (only all-symbolic demands can survive past the end). -/
theorem preassign_nil (g : Graph) (ds : List Demand) :
    ∀ (R : List (List Route)) (n : Nat) (fR' : List (List RExpr)),
      preassign g ds n R [] = Except.ok fR' → fR' = [] := by
  intro R
  induction R with
  | nil => intro n fR' h; cases h; rfl
  | cons routes restR ih =>
    intro n fR' h
    rw [preassign] at h
    cases hm : exMapM (compute_route_price g) routes with
    | error m => rw [hm] at h; simp [except_error_bind] at h
    | ok prices =>
      rw [hm] at h
      simp only [except_ok_bind] at h
      by_cases ha : prices.any isExpr
      · rw [if_pos ha] at h
        exact ih (n + 1) fR' h
      · rw [if_neg ha] at h
        by_cases he : prices.isEmpty
        · rw [if_pos he] at h; cases h
        · rw [if_neg he] at h
          by_cases ht : (prices.map toNum).sum = 0
          · rw [if_pos ht] at h; cases h
          · rw [if_neg ht] at h; cases h

/-- Behaviour of `preassignRow` split by whether any route price is
symbolic. -/
theorem preassignRow_cases (g : Graph) (ds : List Demand) (n : Nat) (routes : List Route)
    (row row' : List RExpr) (prices : List RExpr)
    (hm : exMapM (compute_route_price g) routes = Except.ok prices)
    (h : preassignRow g ds n routes row = Except.ok row') :
    (prices.any isExpr = true → row' = row) ∧
    (prices.any isExpr = false → row' = prices.map (fun p =>
      RExpr.const (toNum p / (prices.map toNum).sum * (ds.getD n ⟨"", "", 0⟩).d))) := by
  rw [preassignRow, hm] at h
  simp only [except_ok_bind] at h
  by_cases ha : prices.any isExpr
  · rw [if_pos ha] at h
    cases h
    exact ⟨fun _ => rfl, fun hc => (by simp [ha] at hc)⟩
  · rw [if_neg ha] at h
    refine ⟨fun hc => absurd hc ha, fun _ => ?_⟩
    by_cases he : prices.isEmpty
    · rw [if_pos he] at h
      cases h
      rw [List.isEmpty_iff] at he
      rw [he]
      rfl
    · rw [if_neg he] at h
      by_cases ht : (prices.map toNum).sum = 0
      · rw [if_pos ht] at h; cases h
      · rw [if_neg ht] at h
        cases hd : ds.get? n with
        | none => rw [hd] at h; cases h
        | some dm =>
          rw [hd] at h
          simp only [require_some, except_ok_bind] at h
          cases h
          rw [getD_of_get? ds n dm ⟨"", "", 0⟩ hd]

/-- Per-demand effect of the pre-assignment pass: a demand with a symbolic
route price keeps its row, a demand with fully numeric route prices gets
the concrete cost-proportional split. -/
theorem preassign_entry (g : Graph) (ds : List Demand) :
    ∀ (R : List (List Route)) (fR fR' : List (List RExpr)) (n k : Nat),
      preassign g ds n R fR = Except.ok fR' → k < R.length →
      ∀ prices, exMapM (compute_route_price g) (R.getD k []) = Except.ok prices →
        (prices.any isExpr = true → fR'.get? k = fR.get? k) ∧
        (prices.any isExpr = false → fR'.get? k = some (prices.map (fun p =>
          RExpr.const (toNum p / (prices.map toNum).sum * (ds.getD (n + k) ⟨"", "", 0⟩).d)))) := by
  intro R
  induction R with
  | nil => intro fR fR' n k _ hk; simp at hk
  | cons routes restR ih =>
    intro fR fR' n k hok hk prices hm
    cases fR with
    | nil =>
      have hnil := preassign_nil g ds (routes :: restR) n fR' hok
      subst hnil
      rw [preassign] at hok
      cases hmm : exMapM (compute_route_price g) routes with
      | error m => rw [hmm] at hok; simp [except_error_bind] at hok
      | ok prices0 =>
        rw [hmm] at hok
        simp only [except_ok_bind] at hok
        by_cases ha : prices0.any isExpr
        · rw [if_pos ha] at hok
          cases k with
          | zero =>
            rw [List.getD_cons_zero] at hm
            rw [hm] at hmm
            cases hmm
            refine ⟨fun _ => rfl, fun hc => by rw [hc] at ha; cases ha⟩
          | succ j =>
            have := ih [] [] (n + 1) j hok (by simpa using hk) prices
              (by rw [List.getD_cons_succ] at hm; exact hm)
            rw [show n + 1 + j = n + (j + 1) from by omega] at this
            exact this
        · rw [if_neg ha] at hok
          by_cases he : prices0.isEmpty
          · rw [if_pos he] at hok; cases hok
          · rw [if_neg he] at hok
            by_cases ht : (prices0.map toNum).sum = 0
            · rw [if_pos ht] at hok; cases hok
            · rw [if_neg ht] at hok; cases hok
    | cons row restRows =>
      rw [preassign] at hok
      cases hrow : preassignRow g ds n routes row with
      | error m => rw [hrow] at hok; simp [except_error_bind] at hok
      | ok row' =>
        rw [hrow] at hok
        simp only [except_ok_bind] at hok
        cases hrest : preassign g ds (n + 1) restR restRows with
        | error m => rw [hrest] at hok; simp [except_error_bind] at hok
        | ok rest' =>
          rw [hrest] at hok
          simp only [except_ok_bind] at hok
          cases hok
          cases k with
          | zero =>
            rw [List.getD_cons_zero] at hm
            have := preassignRow_cases g ds n routes row row' prices hm hrow
            simpa using this
          | succ j =>
            have := ih restRows rest' (n + 1) j hrest (by simpa using hk) prices
              (by rw [List.getD_cons_succ] at hm; exact hm)
            rw [show n + 1 + j = n + (j + 1) from by omega] at this
            simpa using this

/-- Claim C4: in strategy S2 the pre-assignment (run before any solving)
replaces the route-flow row of every demand whose route prices are all
fully numeric by the concrete numbers
`(route_price_j / sum of route prices) * d_i`, and leaves the rows of
demands with any symbolic route price unchanged. -/
theorem setPricesHighToLow_preassigns (g : Graph) (ds : List Demand)
    (R : List (List Route)) (fR fR' : List (List RExpr)) (k : Nat)
    (hok : preassign g ds 0 R fR = Except.ok fR') (hk : k < R.length)
    (prices : List RExpr)
    (hm : exMapM (compute_route_price g) (R.getD k []) = Except.ok prices) :
    (prices.any isExpr = true → fR'.get? k = fR.get? k) ∧
    (prices.any isExpr = false → fR'.get? k = some (prices.map (fun p =>
      RExpr.const (toNum p / (prices.map toNum).sum * (ds.getD k ⟨"", "", 0⟩).d)))) := by
  have := preassign_entry g ds R fR fR' 0 k hok hk prices hm
  simpa using this

/-- Witness for C4: the single demand of `gAB` has the fully numeric
route price 5, so its row is replaced by the committed split
`(5/5) * 10 = 10`. -/
theorem setPricesHighToLow_preassigns_witness :
    ((([RExpr.const 5] : List RExpr).any isExpr = true →
      ([[RExpr.const 10]] : List (List RExpr)).get? 0 = [[RExpr.var "flow_0_0"]].get? 0) ∧
     (([RExpr.const 5] : List RExpr).any isExpr = false →
      ([[RExpr.const 10]] : List (List RExpr)).get? 0 = some ([RExpr.const 5].map (fun p =>
        RExpr.const (toNum p / ([RExpr.const 5].map toNum).sum *
          (([⟨"A", "B", 10⟩] : List Demand).getD 0 ⟨"", "", 0⟩).d))))) :=
  by
  have h1 : preassign gAB [⟨"A", "B", 10⟩] 0 [[[("A", "B", "e0")]]] [[RExpr.var "flow_0_0"]] =
      Except.ok [[RExpr.const 10]] := by
    norm_num [preassign, preassignRow, exMapM, compute_route_price, lookupEdge, require, gAB,
      testData, isExpr, toNum]
  have h2 : exMapM (compute_route_price gAB) (([[[("A", "B", "e0")]]] :
      List (List Route)).getD 0 []) = Except.ok [RExpr.const 5] := by
    norm_num [exMapM, compute_route_price, lookupEdge, require, gAB, testData, isExpr, toNum]
  exact setPricesHighToLow_preassigns gAB [⟨"A", "B", 10⟩] [[[("A", "B", "e0")]]]
    [[RExpr.var "flow_0_0"]] [[RExpr.const 10]] 0 h1 (by decide) [RExpr.const 5] h2

/-! ## Claim C8: scoped assertion frames -/

/-- Adding assertions only grows the innermost frame. -/
theorem sAddAll_frame : ∀ (cs f : List BExpr) (rest : List (List BExpr)),
    sAddAll cs ⟨f :: rest⟩ = ⟨(f ++ cs) :: rest⟩ := by
  intro cs
  induction cs with
  | nil => intro f rest; simp [sAddAll]
  | cons c cs' ih =>
    intro f rest
    rw [sAddAll, List.foldl_cons]
    have : sAdd c ⟨f :: rest⟩ = ⟨(f ++ [c]) :: rest⟩ := rfl
    rw [this]
    have h2 := ih (f ++ [c]) rest
    rw [sAddAll] at h2
    rw [h2]
    simp

/-- Popping the frame pushed at entry restores the incoming state. -/
theorem pop_addAll_push (cs : List BExpr) (s : SolverState) :
    sPop (sAddAll cs (sPush s)) = s := by
  rw [sPush, sAddAll_frame cs [] s.frames, sPop]
  rfl

/-- S1 restores the assertion stack on both of its exits. -/
theorem optimizeObjective_stack (g : Graph) (R : List (List Route)) (fR : List (List RExpr))
    (ds : List Demand) (o : Oracle) (s : SolverState) (res : StratResult) (g' : Graph)
    (s' : SolverState) (h : optimizeObjective g R fR ds o s = Except.ok (res, g', s')) :
    s' = s := by
  rw [optimizeObjective] at h
  cases hc : addConstraints g R fR ds with
  | error m => rw [hc] at h; simp [except_error_bind] at h
  | ok cs =>
    rw [hc] at h
    simp only [except_ok_bind] at h
    cases ho : getObjectiveExpr g R fR with
    | error m => rw [ho] at h; simp [except_error_bind] at h
    | ok obj =>
      rw [ho] at h
      simp only [except_ok_bind] at h
      by_cases hchk : o.check (sAssertions (sAddAll cs (sPush s)))
      · rw [if_pos hchk] at h
        cases h
        exact pop_addAll_push cs s
      · rw [if_neg hchk] at h
        cases h
        exact pop_addAll_push cs s

/-- S2's probe loop restores the assertion stack on every exit. -/
theorem s2Loop_stack (g : Graph) (R : List (List Route)) (fR : List (List RExpr))
    (ds : List Demand) (o : Oracle) (wo : Bool) :
    ∀ (fuel : Nat) (p : ℚ) (s : SolverState) (m : Option Model) (lsp : Option ℚ)
      (out : Option Model × Option ℚ × SolverState),
      s2Loop g R fR ds o wo fuel p s m lsp = Except.ok out → out.2.2 = s := by
  intro fuel
  induction fuel with
  | zero => intro p s m lsp out h; cases h; rfl
  | succ f ih =>
    intro p s m lsp out h
    rw [s2Loop] at h
    by_cases hp : p < 5
    · rw [if_pos hp] at h; cases h; rfl
    · rw [if_neg hp] at h
      cases hc : addConstraints (updatePricesCopy g p) R fR ds with
      | error m2 => rw [hc] at h; cases h
      | ok cs =>
        rw [hc] at h
        cases ho : (if wo then getObjectiveExpr (updatePricesCopy g p) R fR
            else Except.ok (.const 0)) with
        | error m2 => rw [ho] at h; cases h
        | ok obj =>
          rw [ho] at h
          dsimp only at h
          by_cases hchk : o.check (sAssertions (sAddAll cs (sPush s)))
          · rw [if_pos hchk] at h
            have := ih _ _ _ _ _ h
            rw [this, pop_addAll_push]
          · rw [if_neg hchk] at h
            cases h
            exact pop_addAll_push cs s

/-- S2 restores the assertion stack on every exit. -/
theorem setPricesHighToLow_stack (g : Graph) (R : List (List Route)) (fR : List (List RExpr))
    (ds : List Demand) (o : Oracle) (wo : Bool) (s : SolverState) (res : StratResult)
    (g' : Graph) (s' : SolverState)
    (h : setPricesHighToLow g R fR ds o wo s = Except.ok (res, g', s')) : s' = s := by
  rw [setPricesHighToLow] at h
  cases hpre : preassign g ds 0 R fR with
  | error m => rw [hpre] at h; simp [except_error_bind] at h
  | ok fR' =>
    rw [hpre] at h
    simp only [except_ok_bind] at h
    cases hloop : s2Loop g R fR' ds o wo 100 120 s none none with
    | error m => rw [hloop] at h; simp [except_error_bind] at h
    | ok out =>
      rw [hloop] at h
      simp only [except_ok_bind] at h
      have hst := s2Loop_stack g R fR' ds o wo 100 120 s none none out hloop
      obtain ⟨m0, lsp0, st0⟩ := out
      simp only at hst
      cases m0 with
      | some mm =>
        cases lsp0 with
        | some price => cases h; exact hst
        | none => cases h; exact hst
      | none =>
        cases lsp0 with
        | some price => cases h; exact hst
        | none => cases h; exact hst

/-- S4's bisection loop restores the assertion stack. -/
theorem bsLoop_stack (R : List (List Route)) (fR : List (List RExpr)) (ds : List Demand)
    (o : Oracle) :
    ∀ (fuel : Nat) (cmin cmax : ℤ) (g : Graph) (res0 : StratResult) (s : SolverState)
      (out : StratResult × Graph × SolverState),
      bsLoop R fR ds o fuel cmin cmax g res0 s = Except.ok out → out.2.2 = s := by
  intro fuel
  induction fuel with
  | zero => intro cmin cmax g res0 s out h; cases h; rfl
  | succ f ih =>
    intro cmin cmax g res0 s out h
    rw [bsLoop] at h
    cases hop : optimizeObjective (setCapAll g (((cmin + cmax) / 2 : ℤ) : ℚ)) R fR ds o s with
    | error m => rw [hop] at h; simp [except_error_bind] at h
    | ok out1 =>
      rw [hop] at h
      simp only [except_ok_bind] at h
      obtain ⟨res1, g1, s1⟩ := out1
      have hs1 : s1 = s := optimizeObjective_stack _ _ _ _ _ _ _ _ _ hop
      by_cases hsolved : res1.2
      · rw [if_pos hsolved] at h
        have := ih _ _ _ _ _ _ h
        rw [this, hs1]
      · rw [if_neg hsolved] at h
        have := ih _ _ _ _ _ _ h
        rw [this, hs1]

/-- S5's inflation loop restores the assertion stack. -/
theorem incLoop_stack (R : List (List Route)) (fR : List (List RExpr)) (ds : List Demand)
    (o : Oracle) :
    ∀ (fuel : Nat) (g : Graph) (res0 : StratResult) (s : SolverState)
      (out : StratResult × Graph × SolverState),
      incLoop R fR ds o fuel g res0 s = Except.ok out → out.2.2 = s := by
  intro fuel
  induction fuel with
  | zero => intro g res0 s out h; cases h; rfl
  | succ f ih =>
    intro g res0 s out h
    rw [incLoop] at h
    cases hb : bumpCaps g 50 with
    | error m => rw [hb] at h; simp [except_error_bind] at h
    | ok g1 =>
      rw [hb] at h
      simp only [except_ok_bind] at h
      cases hop : optimizeObjective g1 R fR ds o s with
      | error m => rw [hop] at h; simp [except_error_bind] at h
      | ok out1 =>
        rw [hop] at h
        simp only [except_ok_bind] at h
        obtain ⟨res1, g2, s1⟩ := out1
        have hs1 : s1 = s := optimizeObjective_stack _ _ _ _ _ _ _ _ _ hop
        by_cases hsolved : res1.2
        · rw [if_pos hsolved] at h
          cases h
          exact hs1
        · rw [if_neg hsolved] at h
          have := ih _ _ _ _ h
          rw [this, hs1]

/-- Claim C8: every strategy leaves the solver's assertion-frame stack
exactly as it found it on every normal exit — each `push` is matched by
exactly one `pop` on the SAT and UNSAT exits of S1, on each SAT iteration
and the UNSAT break of S2, and inside every S1 invocation made by S4 and
S5. -/
theorem strategies_balance_frames (strat : StratName) (g : Graph) (R : List (List Route))
    (fR : List (List RExpr)) (ds : List Demand) (o : Oracle) (s : SolverState)
    (res : StratResult) (g' : Graph) (s' : SolverState)
    (h : runStrategy strat g R fR ds o s = Except.ok (res, g', s')) : s' = s := by
  cases strat with
  | optimize => exact optimizeObjective_stack g R fR ds o s res g' s' h
  | highToLow => exact setPricesHighToLow_stack g R fR ds o false s res g' s' h
  | highToLowWO => exact setPricesHighToLow_stack g R fR ds o true s res g' s' h
  | bsCapacity => exact bsLoop_stack R fR ds o 6 500 5000 g (none, false) s (res, g', s') h
  | incCapacity => exact incLoop_stack R fR ds o 10 g (none, false) s (res, g', s') h

/-- The all-UNSAT oracle and an empty solver state, for concrete runs. -/
def oUnsat : Oracle := { check := fun _ => false, model := fun _ => fun _ => 0 }

/-- An empty initial solver state. -/
def sInit : SolverState := ⟨[]⟩

/-- The single-route instance of `gAB` shared by concrete strategy runs. -/
def RW1 : List (List Route) := [[[("A", "B", "e0")]]]

/-- Its route-flow matrix. -/
def fRW1 : List (List RExpr) := [[RExpr.var "flow_0_0"]]

/-- Its demand list. -/
def dsW1 : List Demand := [⟨"A", "B", 10⟩]

/-- Witness for C8: a concrete S1 run under the all-UNSAT oracle ends with
the stack it started with. -/
theorem strategies_balance_frames_witness :
    (runStrategy .optimize gAB RW1 fRW1 dsW1 oUnsat sInit =
      Except.ok (((none, false) : StratResult), gAB, sInit)) ∧ sInit = sInit :=
  ⟨by rfl, strategies_balance_frames .optimize gAB RW1 fRW1 dsW1 oUnsat sInit
    (none, false) gAB sInit (by rfl)⟩

/-! ## Claim C10: parse / write round trip -/

/-- Pointwise-identity maps are the identity. -/
theorem map_self {α : Type} (f : α → α) :
    ∀ (l : List α), (∀ a ∈ l, f a = a) → l.map f = l := by
  intro l
  induction l with
  | nil => intro _; rfl
  | cons a rest ih =>
    intro h
    rw [List.map_cons, h a (by simp), ih (fun a' ha' => h a' (List.mem_cons_of_mem _ ha'))]

/-- `exMapM` over pointwise-successful identities succeeds with the input
list. -/
theorem exMapM_id {α : Type} (f : α → Except String α) :
    ∀ (l : List α), (∀ a ∈ l, f a = Except.ok a) → exMapM f l = Except.ok l := by
  intro l
  induction l with
  | nil => intro _; rfl
  | cons a rest ih =>
    intro h
    rw [exMapM, h a (by simp), except_ok_bind,
      ih (fun a' ha' => h a' (List.mem_cons_of_mem _ ha')), except_ok_bind]

/-- Cleaning an edge without symbolic attribute values changes nothing. -/
theorem cleanEdge_id (e : PEdge) (h : ∀ p ∈ e.attrs, isSymA p.2 = false) :
    cleanEdge e = e := by
  rw [cleanEdge]
  have hmap : e.attrs.map (fun p => (p.1, cleanVal p.2)) = e.attrs := by
    apply map_self
    intro p hp
    have hs2 := h p hp
    have hcv : cleanVal p.2 = p.2 := by
      cases hv : p.2 with
      | sym n => rw [hv] at hs2; simp [isSymA] at hs2
      | num q => rfl
      | str s2 => rfl
      | null => rfl
    rw [hcv]
  rw [hmap]

/-- The `k`-backfill is a no-op on an edge whose `k` is already truthy
(whatever file it is parsed from). -/
theorem backfillK_truthy (f : InputFile) (e : PEdge)
    (h : avalFalsy (attrsGet e.attrs "k") = false) : backfillK f e = Except.ok e := by
  rw [backfillK, if_neg]
  simp [h]

/-- Claim C10: writing a parsed graph and parsing the written file gives
back exactly the same edges with the same attribute dictionaries, provided
the parse succeeded, every edge ended with a truthy `k` (the data model's
positive congestion coefficients guarantee this), and the parsed graph
holds no symbolic values (a parse result never does); moreover the writer
serializes every symbolic attribute value as `null`. -/
theorem parse_write_roundtrip (f : InputFile) (G1 : PGraph) (dms : Option (List Demand))
    (_hp : parseGraph f = Except.ok (G1, dms))
    (hk : ∀ e ∈ G1, avalFalsy (attrsGet e.attrs "k") = false)
    (hs : ∀ e ∈ G1, ∀ p ∈ e.attrs, isSymA p.2 = false) :
    parseGraph (writeGraphToJSON G1) = Except.ok (G1, none) ∧
    (∀ v : AVal, isSymA v = true → cleanVal v = AVal.null) := by
  constructor
  · have hclean : G1.map cleanEdge = G1 :=
      map_self cleanEdge G1 (fun e he => cleanEdge_id e (hs e he))
    have hW : writeGraphToJSON G1 =
        ⟨none, some [⟨"Combined", G1⟩], none⟩ := by
      rw [writeGraphToJSON, hclean]
    rw [hW, parseGraph]
    simp only [require_some, except_ok_bind]
    have hedges : (([⟨"Combined", G1⟩] : List PNetwork).flatMap
        (fun n => n.edge_list)) = G1 := by simp
    rw [hedges]
    rw [exMapM_id _ G1 (fun e he => backfillK_truthy _ e (hk e he))]
    rfl
  · intro v hv
    cases v with
    | sym n => rfl
    | num q => simp [isSymA] at hv
    | str s2 => simp [isSymA] at hv
    | null => simp [isSymA] at hv

/-- A concrete input file: one network, one edge, a `k`-map entry for its
color. -/
def fileW : InputFile :=
  ⟨some [("red", 2)],
   some [⟨"n1", [⟨"A", "B", [("color", AVal.str "red"), ("capacity", AVal.num 100),
     ("price", AVal.num 5)]⟩]⟩],
   some [⟨"A", "B", 10⟩]⟩

/-- `parseGraph fileW`'s graph: the single edge with `k` backfilled from
the color map. -/
def parsedW : PGraph :=
  [⟨"A", "B", [("color", AVal.str "red"), ("capacity", AVal.num 100),
    ("price", AVal.num 5), ("k", AVal.num 2)]⟩]

/-- Witness for C10 at the concrete file `fileW`. -/
theorem parse_write_roundtrip_witness :
    parseGraph (writeGraphToJSON parsedW) = Except.ok (parsedW, none) ∧
    (∀ v : AVal, isSymA v = true → cleanVal v = AVal.null) :=
  parse_write_roundtrip fileW parsedW (some [⟨"A", "B", 10⟩]) (by decide) (by decide) (by decide)

/-! ## Claim C5: strategies and exceptions

The counterexample below shows the claim false as stated; the amended
theorem then isolates the well-formedness conditions under which no
strategy can raise. -/

/-- A graph whose single edge has no `capacity` attribute. -/
def gNoCap : Graph :=
  ⟨[⟨"A", "B", "e0",
    { color := "red", capacity := none, price := some (.const 5), k := 1,
      f_e := some (.var "f_A-B-red") }⟩]⟩

/-- Claim C5, counterexample: on a graph with a capacity-less edge,
strategy S5 (`increaseCapacity`) raises `KeyError` from
`data["capacity"] += C_Delta` before ever reaching the solver — the
strategies do not return normally on every input. -/
theorem strategy_throws_counterexample :
    isErr (runStrategy .incCapacity gNoCap RW1 fRW1 dsW1 oUnsat sInit) = true := by rfl

/-- `exMapM` of pointwise-successful computations succeeds. -/
theorem exMapM_isOk {α β : Type} (f : α → Except String β) :
    ∀ (l : List α), (∀ a ∈ l, isErr (f a) = false) → isErr (exMapM f l) = false := by
  intro l
  induction l with
  | nil => intro _; rfl
  | cons a rest ih =>
    intro h
    rw [exMapM]
    cases hfa : f a with
    | error m => have := h a (by simp); rw [hfa] at this; simp [isErr] at this
    | ok b =>
      rw [except_ok_bind]
      cases hrest : exMapM f rest with
      | error m =>
        have := ih (fun a' ha' => h a' (List.mem_cons_of_mem _ ha'))
        rw [hrest] at this
        simp [isErr] at this
      | ok bs => rw [except_ok_bind]; rfl

/-- `exMapM` over a pointwise-computable function returns the map. -/
theorem exMapM_map_of_ok {α β : Type} (f : α → Except String β) (h : α → β) :
    ∀ (l : List α), (∀ a ∈ l, f a = Except.ok (h a)) → exMapM f l = Except.ok (l.map h) := by
  intro l
  induction l with
  | nil => intro _; rfl
  | cons a rest ih =>
    intro hall
    rw [exMapM, hall a (by simp), except_ok_bind,
      ih (fun a' ha' => hall a' (List.mem_cons_of_mem _ ha')), except_ok_bind, List.map_cons]

/-- The data a lookup returns belongs to some edge of the graph. -/
theorem lookupEdge_data_mem (g : Graph) (u v k : String) (d : EdgeData)
    (h : lookupEdge g u v k = some d) : ∃ e ∈ g.edges, e.data = d := by
  rw [lookupEdge] at h
  cases hf : g.edges.find? (fun e =>
      ((e.u = u ∧ e.v = v) ∨ (e.u = v ∧ e.v = u)) ∧ e.key = k) with
  | none => rw [hf] at h; simp at h
  | some e =>
    rw [hf] at h
    simp at h
    exact ⟨e, List.mem_of_find?_eq_some hf, h⟩

/-- Looking up in a per-edge-updated graph transforms the found data. -/
theorem lookupEdge_mapEdges (phi : EdgeData → EdgeData) (g : Graph) (u v k : String) :
    lookupEdge (mapEdges phi g) u v k = (lookupEdge g u v k).map phi := by
  rw [lookupEdge, lookupEdge, mapEdges]
  rw [List.find?_map]
  cases hf : g.edges.find? (fun e =>
      ((e.u = u ∧ e.v = v) ∨ (e.u = v ∧ e.v = u)) ∧ e.key = k) with
  | none =>
    have : g.edges.find? ((fun e =>
        decide (((e.u = u ∧ e.v = v) ∨ (e.u = v ∧ e.v = u)) ∧ e.key = k)) ∘
        (fun e => { e with data := phi e.data })) = none := hf
    rw [this]
    rfl
  | some e =>
    have : g.edges.find? ((fun e =>
        decide (((e.u = u ∧ e.v = v) ∨ (e.u = v ∧ e.v = u)) ∧ e.key = k)) ∘
        (fun e => { e with data := phi e.data })) = some e := hf
    rw [this]
    rfl

/-- The well-formedness conditions the constraint and objective builders
need: aligned matrix shapes, complete edge attribute dictionaries, and
resolvable route edges. -/
def ConstraintsWF (g : Graph) (R : List (List Route)) (fR : List (List RExpr))
    (ds : List Demand) : Prop :=
  ds.length = R.length ∧
  R.length ≤ fR.length ∧
  (∀ p ∈ R.zip fR, p.1.length ≤ p.2.length) ∧
  (∀ e ∈ g.edges, e.data.f_e.isSome ∧ e.data.price.isSome ∧ e.data.capacity.isSome) ∧
  (∀ routes ∈ R, ∀ r ∈ routes, ∀ t ∈ r, (lookupEdge g t.1 t.2.1 t.2.2).isSome)

/-- The additional condition S2's pre-assignment needs: no demand with
fully numeric, non-empty route prices sums them to zero. -/
def rowTotalsOk (g : Graph) (routes : List Route) : Bool :=
  match exMapM (compute_route_price g) routes with
  | .ok prices => prices.any isExpr || prices.isEmpty || !(decide ((prices.map toNum).sum = 0))
  | .error _ => true

/-- Full well-formedness for the amended claim C5. -/
def WFInput (g : Graph) (R : List (List Route)) (fR : List (List RExpr))
    (ds : List Demand) : Prop :=
  ConstraintsWF g R fR ds ∧ ∀ routes ∈ R, rowTotalsOk g routes = true

/-- Resolvability of one route: every edge it names exists and carries
`f_e` and `price`. -/
def routeResolvable (g : Graph) (r : Route) : Prop :=
  ∀ t ∈ r, ∃ d, lookupEdge g t.1 t.2.1 t.2.2 = some d ∧ d.f_e.isSome ∧ d.price.isSome

/-- Well-formed inputs make every enumerated route resolvable. -/
theorem routeResolvable_of_WF (g : Graph) (R : List (List Route))
    (fR : List (List RExpr)) (ds : List Demand) (hC : ConstraintsWF g R fR ds)
    (routes : List Route) (hroutes : routes ∈ R) (r : Route) (hr : r ∈ routes) :
    routeResolvable g r := by
  intro t ht
  obtain ⟨_, _, _, hedge, hlook⟩ := hC
  have hsome := hlook routes hroutes r hr t ht
  obtain ⟨d, hd⟩ := Option.isSome_iff_exists.mp hsome
  obtain ⟨e, he, hed⟩ := lookupEdge_data_mem g _ _ _ d hd
  refine ⟨d, hd, ?_, ?_⟩
  · rw [← hed]; exact (hedge e he).1
  · rw [← hed]; exact (hedge e he).2.1

/-- Route costs compute on resolvable routes. -/
theorem compute_route_cost_isOk (g : Graph) (r : Route) (h : routeResolvable g r) :
    isErr (compute_route_cost g r) = false := by
  rw [compute_route_cost]
  have hterms : isErr (exMapM (fun e => do
      let d ← require (lookupEdge g e.1 e.2.1 e.2.2) "KeyError: edge"
      routeCostTerm d) r) = false := by
    apply exMapM_isOk
    intro t ht
    obtain ⟨d, hd, hfe, hpr⟩ := h t ht
    rw [hd, require_some, except_ok_bind, routeCostTerm]
    obtain ⟨fe, hfe2⟩ := Option.isSome_iff_exists.mp hfe
    obtain ⟨pr, hpr2⟩ := Option.isSome_iff_exists.mp hpr
    rw [hfe2, hpr2]
    rfl
  cases hex : exMapM (fun e => do
      let d ← require (lookupEdge g e.1 e.2.1 e.2.2) "KeyError: edge"
      routeCostTerm d) r with
  | error m => rw [hex] at hterms; simp [isErr] at hterms
  | ok terms => rw [except_ok_bind]; rfl

/-- Route prices compute on resolvable routes. -/
theorem compute_route_price_isOk (g : Graph) (r : Route) (h : routeResolvable g r) :
    isErr (compute_route_price g r) = false := by
  rw [compute_route_price]
  have hterms : isErr (exMapM (fun e => do
      let d ← require (lookupEdge g e.1 e.2.1 e.2.2) "KeyError: edge"
      require d.price "KeyError: price") r) = false := by
    apply exMapM_isOk
    intro t ht
    obtain ⟨d, hd, _, hpr⟩ := h t ht
    rw [hd, require_some, except_ok_bind]
    obtain ⟨pr, hpr2⟩ := Option.isSome_iff_exists.mp hpr
    rw [hpr2, require_some]
    rfl
  cases hex : exMapM (fun e => do
      let d ← require (lookupEdge g e.1 e.2.1 e.2.2) "KeyError: edge"
      require d.price "KeyError: price") r with
  | error m => rw [hex] at hterms; simp [isErr] at hterms
  | ok terms => rw [except_ok_bind]; rfl

/-- Successful `get?` from an index below the length. -/
theorem get?_of_lt {α : Type} (l : List α) (i : Nat) (h : i < l.length) :
    ∃ x, l.get? i = some x := by
  cases hx : l.get? i with
  | none => rw [List.get?_eq_none] at hx; omega
  | some x => exact ⟨x, rfl⟩

/-- Componentwise `get?` hits produce a `zip` member. -/
theorem zip_mem_of_get? {α β : Type} :
    ∀ (l1 : List α) (l2 : List β) (i : Nat) (a : α) (b : β),
      l1.get? i = some a → l2.get? i = some b → (a, b) ∈ l1.zip l2 := by
  intro l1
  induction l1 with
  | nil => intro l2 i a b h1 _; simp at h1
  | cons x rest ih =>
    intro l2 i a b h1 h2
    cases l2 with
    | nil => simp at h2
    | cons y rest2 =>
      cases i with
      | zero =>
        simp at h1 h2
        rw [h1, h2]
        simp [List.zip_cons_cons]
      | succ j =>
        rw [List.get?_cons_succ] at h1 h2
        rw [List.zip_cons_cons]
        exact List.mem_cons_of_mem _ (ih rest2 j a b h1 h2)

/-- `addC1C2Constraints` succeeds on well-formed inputs. -/
theorem addC1C2_isOk (g : Graph) (R : List (List Route)) (fR : List (List RExpr))
    (ds : List Demand) (hC : ConstraintsWF g R fR ds) :
    isErr (addC1C2Constraints g R fR) = false := by
  obtain ⟨_, hlen, hzip, hedge, _⟩ := hC
  rw [addC1C2Constraints,
    c1c2Go_ok R fR hlen hzip g.edges (fun e he => ⟨(hedge e he).1, (hedge e he).2.1⟩)]
  rfl

/-- `addC3C4Constraints` succeeds on well-formed inputs. -/
theorem addC3C4_isOk (g : Graph) (R : List (List Route)) (fR : List (List RExpr))
    (ds : List Demand) (hC : ConstraintsWF g R fR ds) :
    isErr (addC3C4Constraints g R fR ds) = false := by
  have hhyp : ∀ i dm, ds.get? i = some dm → (dm.s ∈ nodes g ∧ dm.t ∈ nodes g) →
      ∃ routes row, R.get? i = some routes ∧ fR.get? i = some row ∧
        routes.length ≤ row.length ∧
        ∀ r ∈ routes, isErr (compute_route_cost g r) = false ∧
          isErr (compute_route_price g r) = false := by
    intro i dm hi _
    have hdl := hC.1
    have hlen := hC.2.1
    have hzip := hC.2.2.1
    have hiR : i < R.length := by
      have : i < ds.length := by
        by_contra hcon
        rw [List.get?_eq_none.mpr (by omega)] at hi
        cases hi
      omega
    obtain ⟨routes, hroutes⟩ := get?_of_lt R i hiR
    obtain ⟨row, hrow⟩ := get?_of_lt fR i (by omega)
    refine ⟨routes, row, hroutes, hrow, ?_, ?_⟩
    · exact hzip (routes, row) (zip_mem_of_get? R fR i routes row hroutes hrow)
    · intro r hr
      have hmem : routes ∈ R := List.get?_mem hroutes
      have hres := routeResolvable_of_WF g R fR ds hC routes hmem r hr
      exact ⟨compute_route_cost_isOk g r hres, compute_route_price_isOk g r hres⟩
  rw [addC3C4Constraints, c3c4Outer_ok g R fR ds 0 (fun k dm hk hm => by
    obtain ⟨a, b, h1, h2, h3, h4⟩ := hhyp k dm hk hm
    exact ⟨a, b, by simpa using h1, by simpa using h2, h3, h4⟩)]
  rfl

/-- The inner objective loop succeeds on covered, resolvable routes. -/
theorem objInner_isOk (g : Graph) :
    ∀ (routes : List Route) (row : List RExpr), routes.length ≤ row.length →
      (∀ r ∈ routes, isErr (compute_route_cost g r) = false) →
      isErr (objInner g routes row) = false := by
  intro routes
  induction routes with
  | nil => intro row _ _; rfl
  | cons r rest ih =>
    intro row hlen hok
    cases row with
    | nil => simp at hlen
    | cons x rowRest =>
      simp only [List.length_cons, Nat.succ_le_succ_iff] at hlen
      rw [objInner]
      cases hc : compute_route_cost g r with
      | error m => have := hok r (by simp); rw [hc] at this; simp [isErr] at this
      | ok cost =>
        simp only [except_ok_bind, List.tail_cons]
        cases htl : objInner g rest rowRest with
        | error m =>
          have := ih rowRest hlen (fun r' hr' => hok r' (List.mem_cons_of_mem _ hr'))
          rw [htl] at this
          simp [isErr] at this
        | ok tl => rw [except_ok_bind]; rfl

/-- The outer objective loop succeeds on well-shaped inputs. -/
theorem objOuter_isOk (g : Graph) :
    ∀ (Rs : List (List Route)) (fRs : List (List RExpr)), Rs.length ≤ fRs.length →
      (∀ p ∈ Rs.zip fRs, p.1.length ≤ p.2.length) →
      (∀ routes ∈ Rs, ∀ r ∈ routes, isErr (compute_route_cost g r) = false) →
      isErr (objOuter g Rs fRs) = false := by
  intro Rs
  induction Rs with
  | nil => intro fRs _ _ _; rfl
  | cons routes restR ih =>
    intro fRs hlen hzip hok
    cases fRs with
    | nil => simp at hlen
    | cons row restRows =>
      simp only [List.length_cons, Nat.succ_le_succ_iff] at hlen
      rw [objOuter]
      cases hin : objInner g routes row with
      | error m =>
        have := objInner_isOk g routes row (hzip (routes, row) (by simp))
          (fun r hr => hok routes (by simp) r hr)
        rw [hin] at this
        simp [isErr] at this
      | ok a =>
        simp only [except_ok_bind]
        cases hout : objOuter g restR restRows with
        | error m =>
          have := ih restRows hlen (fun p hp => hzip p (List.mem_cons_of_mem _ hp))
            (fun routes' hr' r hr2 => hok routes' (List.mem_cons_of_mem _ hr') r hr2)
          rw [hout] at this
          simp [isErr] at this
        | ok b => rw [except_ok_bind]; rfl

/-- `getObjectiveExpr` succeeds on well-formed inputs. -/
theorem getObjectiveExpr_isOk (g : Graph) (R : List (List Route)) (fR : List (List RExpr))
    (ds : List Demand) (hC : ConstraintsWF g R fR ds) :
    isErr (getObjectiveExpr g R fR) = false := by
  rw [getObjectiveExpr]
  cases hout : objOuter g R fR with
  | error m =>
    have := objOuter_isOk g R fR hC.2.1 hC.2.2.1 (fun routes hroutes r hr =>
      compute_route_cost_isOk g r (routeResolvable_of_WF g R fR ds hC routes hroutes r hr))
    rw [hout] at this
    simp [isErr] at this
  | ok terms => rw [except_ok_bind]; rfl

/-- `addConstraints` succeeds on well-formed inputs. -/
theorem addConstraints_isOk (g : Graph) (R : List (List Route)) (fR : List (List RExpr))
    (ds : List Demand) (hC : ConstraintsWF g R fR ds) :
    isErr (addConstraints g R fR ds) = false := by
  rw [addConstraints]
  cases h1 : addC1C2Constraints g R fR with
  | error m => have := addC1C2_isOk g R fR ds hC; rw [h1] at this; simp [isErr] at this
  | ok a =>
    simp only [except_ok_bind]
    cases h2 : addC3C4Constraints g R fR ds with
    | error m => have := addC3C4_isOk g R fR ds hC; rw [h2] at this; simp [isErr] at this
    | ok b => rw [except_ok_bind]; rfl

/-- S1 on well-formed inputs: no exception, the graph is returned
untouched, and an unsolved return carries no model. -/
theorem optimizeObjective_characterize (g : Graph) (R : List (List Route))
    (fR : List (List RExpr)) (ds : List Demand) (o : Oracle) (s : SolverState)
    (hC : ConstraintsWF g R fR ds) :
    isErr (optimizeObjective g R fR ds o s) = false ∧
    ∀ m b g' s', optimizeObjective g R fR ds o s = Except.ok ((m, b), g', s') →
      (m = none ↔ b = false) ∧ g' = g := by
  rw [optimizeObjective]
  cases h1 : addConstraints g R fR ds with
  | error m => have := addConstraints_isOk g R fR ds hC; rw [h1] at this; simp [isErr] at this
  | ok cs =>
    simp only [except_ok_bind]
    cases h2 : getObjectiveExpr g R fR with
    | error m =>
      have := getObjectiveExpr_isOk g R fR ds hC
      rw [h2] at this
      simp [isErr] at this
    | ok obj =>
      simp only [except_ok_bind]
      by_cases hchk : o.check (sAssertions (sAddAll cs (sPush s)))
      · rw [if_pos hchk]
        refine ⟨rfl, ?_⟩
        intro m b g' s' h
        cases h
        exact ⟨by simp, rfl⟩
      · rw [if_neg hchk]
        refine ⟨rfl, ?_⟩
        intro m b g' s' h
        cases h
        exact ⟨by simp, rfl⟩

/-- Edge-attribute updates that keep the dictionaries complete preserve
the builders' well-formedness. -/
theorem ConstraintsWF_mapEdges (phi : EdgeData → EdgeData)
    (hphi : ∀ d : EdgeData, (d.f_e.isSome → (phi d).f_e.isSome) ∧
      (d.price.isSome → (phi d).price.isSome) ∧
      (d.capacity.isSome → (phi d).capacity.isSome))
    (g : Graph) (R : List (List Route)) (fR : List (List RExpr)) (ds : List Demand)
    (hC : ConstraintsWF g R fR ds) : ConstraintsWF (mapEdges phi g) R fR ds := by
  obtain ⟨h1, h2, h3, h4, h5⟩ := hC
  refine ⟨h1, h2, h3, ?_, ?_⟩
  · intro e' he'
    rw [mapEdges] at he'
    simp only [List.mem_map] at he'
    obtain ⟨e, he, heq⟩ := he'
    have h := h4 e he
    rw [← heq]
    exact ⟨(hphi e.data).1 h.1, (hphi e.data).2.1 h.2.1, (hphi e.data).2.2 h.2.2⟩
  · intro routes hroutes r hr t ht
    rw [lookupEdge_mapEdges]
    have := h5 routes hroutes r hr t ht
    cases hl : lookupEdge g t.1 t.2.1 t.2.2 with
    | none => rw [hl] at this; simp at this
    | some d => rfl

/-- The price substitution of S2 keeps the dictionaries complete. -/
theorem updPriceData_preserves (p : ℚ) (d : EdgeData) :
    (d.f_e.isSome → ((updPriceData p d).f_e.isSome)) ∧
    (d.price.isSome → ((updPriceData p d).price.isSome)) ∧
    (d.capacity.isSome → ((updPriceData p d).capacity.isSome)) := by
  cases hd : d.price with
  | none => simp [updPriceData, hd]
  | some pr =>
    by_cases hpr : isExpr pr
    · simp [updPriceData, hd, hpr]
    · simp [updPriceData, hd, hpr]

/-- The per-edge form of S5's capacity bump (defined on complete
dictionaries). -/
def bumpData (delta : ℚ) (d : EdgeData) : EdgeData :=
  { d with capacity := some (d.capacity.getD 0 + delta) }

/-- On a graph whose every edge has a capacity, `bumpCaps` succeeds and is
the per-edge bump. -/
theorem bumpCaps_ok (g : Graph) (delta : ℚ)
    (h : ∀ e ∈ g.edges, e.data.capacity.isSome) :
    bumpCaps g delta = Except.ok (mapEdges (bumpData delta) g) := by
  rw [bumpCaps, mapEdges]
  have hmap := exMapM_map_of_ok (fun e =>
      match e.data.capacity with
      | some c => Except.ok { e with data := { e.data with capacity := some (c + delta) } }
      | none => (Except.error "KeyError: capacity" : Except String GEdge))
    (fun e => { e with data := bumpData delta e.data }) g.edges (fun e he => by
      obtain ⟨c, hc⟩ := Option.isSome_iff_exists.mp (h e he)
      dsimp only
      rw [hc]
      simp [bumpData, hc])
  rw [hmap, except_ok_bind]

/-- `exMapM` preserves list length. -/
theorem exMapM_length {α β : Type} (f : α → Except String β) :
    ∀ (l : List α) (out : List β), exMapM f l = Except.ok out → out.length = l.length := by
  intro l
  induction l with
  | nil => intro out h; cases h; rfl
  | cons a rest ih =>
    intro out h
    rw [exMapM] at h
    cases hfa : f a with
    | error m => rw [hfa] at h; cases h
    | ok b =>
      rw [hfa, except_ok_bind] at h
      cases hrest : exMapM f rest with
      | error m => rw [hrest] at h; cases h
      | ok bs =>
        rw [hrest, except_ok_bind] at h
        cases h
        simp [ih bs hrest]

/-- The pre-assignment leaves the flow matrix's length unchanged. -/
theorem preassign_length (g : Graph) (ds : List Demand) :
    ∀ (Rs : List (List Route)) (fRs out : List (List RExpr)) (n : Nat),
      preassign g ds n Rs fRs = Except.ok out → out.length = fRs.length := by
  intro Rs
  induction Rs with
  | nil => intro fRs out n h; cases h; rfl
  | cons routes restR ih =>
    intro fRs out n h
    cases fRs with
    | nil =>
      rw [preassign_nil g ds (routes :: restR) n out h]
    | cons row restRows =>
      rw [preassign] at h
      cases hrow : preassignRow g ds n routes row with
      | error m => rw [hrow] at h; cases h
      | ok row' =>
        rw [hrow, except_ok_bind] at h
        cases hrest : preassign g ds (n + 1) restR restRows with
        | error m => rw [hrest] at h; cases h
        | ok rest' =>
          rw [hrest, except_ok_bind] at h
          cases h
          simp [ih restRows rest' (n + 1) hrest]

/-- A pre-assigned row is the original row or exactly one entry per
route. -/
theorem preassignRow_length (g : Graph) (ds : List Demand) (n : Nat) (routes : List Route)
    (row row' : List RExpr) (h : preassignRow g ds n routes row = Except.ok row') :
    row' = row ∨ row'.length = routes.length := by
  rw [preassignRow] at h
  cases hm : exMapM (compute_route_price g) routes with
  | error m => rw [hm] at h; cases h
  | ok prices =>
    rw [hm, except_ok_bind] at h
    by_cases ha : prices.any isExpr
    · rw [if_pos ha] at h; cases h; exact Or.inl rfl
    · rw [if_neg ha] at h
      by_cases he : prices.isEmpty
      · rw [if_pos he] at h
        cases h
        refine Or.inr ?_
        rw [List.isEmpty_iff] at he
        have := exMapM_length (compute_route_price g) routes prices hm
        rw [he] at this
        simp [← this]
      · rw [if_neg he] at h
        by_cases ht : (prices.map toNum).sum = 0
        · rw [if_pos ht] at h; cases h
        · rw [if_neg ht] at h
          cases hd : ds.get? n with
          | none => rw [hd] at h; cases h
          | some dm =>
            rw [hd, require_some, except_ok_bind] at h
            cases h
            refine Or.inr ?_
            rw [List.length_map]
            exact exMapM_length (compute_route_price g) routes prices hm

/-- The pre-assignment preserves rowwise coverage of the route sets. -/
theorem preassign_zip (g : Graph) (ds : List Demand) :
    ∀ (Rs : List (List Route)) (fRs out : List (List RExpr)) (n : Nat),
      preassign g ds n Rs fRs = Except.ok out →
      (∀ p ∈ Rs.zip fRs, p.1.length ≤ p.2.length) →
      ∀ p ∈ Rs.zip out, p.1.length ≤ p.2.length := by
  intro Rs
  induction Rs with
  | nil => intro fRs out n _ _ p hp; simp at hp
  | cons routes restR ih =>
    intro fRs out n h hzip p hp
    cases fRs with
    | nil =>
      rw [preassign_nil g ds (routes :: restR) n out h] at hp
      simp at hp
    | cons row restRows =>
      rw [preassign] at h
      cases hrow : preassignRow g ds n routes row with
      | error m => rw [hrow] at h; cases h
      | ok row' =>
        rw [hrow, except_ok_bind] at h
        cases hrest : preassign g ds (n + 1) restR restRows with
        | error m => rw [hrest] at h; cases h
        | ok rest' =>
          rw [hrest, except_ok_bind] at h
          cases h
          rw [List.zip_cons_cons] at hp
          rcases List.mem_cons.mp hp with hp | hp
          · rw [hp]
            rcases preassignRow_length g ds n routes row row' hrow with heq | hlen
            · rw [heq]
              exact hzip (routes, row) (by simp [List.zip_cons_cons])
            · simp [hlen]
          · exact ih restRows rest' (n + 1) hrest
              (fun q hq => hzip q (by rw [List.zip_cons_cons]; exact List.mem_cons_of_mem _ hq)) p hp

/-- The pre-assignment succeeds on well-formed inputs. -/
theorem preassign_isOk (g : Graph) (ds : List Demand) :
    ∀ (Rs : List (List Route)) (fRs : List (List RExpr)) (n : Nat),
      Rs.length ≤ fRs.length → n + Rs.length ≤ ds.length →
      (∀ routes ∈ Rs, isErr (exMapM (compute_route_price g) routes) = false ∧
        rowTotalsOk g routes = true) →
      isErr (preassign g ds n Rs fRs) = false := by
  intro Rs
  induction Rs with
  | nil => intro fRs n _ _ _; rfl
  | cons routes restR ih =>
    intro fRs n hlen hds hok
    cases fRs with
    | nil => simp at hlen
    | cons row restRows =>
      simp only [List.length_cons, Nat.succ_le_succ_iff] at hlen
      rw [preassign]
      have hrowOk : isErr (preassignRow g ds n routes row) = false := by
        rw [preassignRow]
        cases hm : exMapM (compute_route_price g) routes with
        | error m =>
          have := (hok routes (by simp)).1
          rw [hm] at this
          simp [isErr] at this
        | ok prices =>
          rw [except_ok_bind]
          by_cases ha : prices.any isExpr
          · rw [if_pos ha]; rfl
          · rw [if_neg ha]
            by_cases he : prices.isEmpty
            · rw [if_pos he]; rfl
            · rw [if_neg he]
              have htot := (hok routes (by simp)).2
              rw [rowTotalsOk, hm] at htot
              dsimp only at htot
              have ha2 : prices.any isExpr = false := by simpa using ha
              have he2 : prices.isEmpty = false := by simpa using he
              rw [ha2, he2] at htot
              have hsum : (prices.map toNum).sum ≠ 0 := by simpa using htot
              rw [if_neg hsum]
              have hn : n < ds.length := by
                simp only [List.length_cons] at hds
                omega
              obtain ⟨dm, hdm⟩ := get?_of_lt ds n hn
              rw [hdm, require_some, except_ok_bind]
              rfl
      cases hrow : preassignRow g ds n routes row with
      | error m => rw [hrow] at hrowOk; simp [isErr] at hrowOk
      | ok row' =>
        rw [except_ok_bind]
        have hrest := ih restRows (n + 1) hlen
          (by simp only [List.length_cons] at hds; omega)
          (fun routes' hr' => hok routes' (List.mem_cons_of_mem _ hr'))
        cases hrest2 : preassign g ds (n + 1) restR restRows with
        | error m => rw [hrest2] at hrest; simp [isErr] at hrest
        | ok rest' => rw [except_ok_bind]; rfl

/-- S2's probe loop on well-formed inputs: no exception, and a model is
recorded exactly when a successful price is. -/
theorem s2Loop_characterize (g : Graph) (R : List (List Route)) (fR' : List (List RExpr))
    (ds : List Demand) (o : Oracle) (wo : Bool)
    (hC : ∀ p : ℚ, ConstraintsWF (updatePricesCopy g p) R fR' ds) :
    ∀ (fuel : Nat) (p : ℚ) (s : SolverState) (m : Option Model) (lsp : Option ℚ),
      isErr (s2Loop g R fR' ds o wo fuel p s m lsp) = false ∧
      ∀ out, s2Loop g R fR' ds o wo fuel p s m lsp = Except.ok out →
        (m.isSome ↔ lsp.isSome) → (out.1.isSome ↔ out.2.1.isSome) := by
  intro fuel
  induction fuel with
  | zero =>
    intro p s m lsp
    refine ⟨rfl, ?_⟩
    intro out h hinv
    cases h
    exact hinv
  | succ f ih =>
    intro p s m lsp
    rw [s2Loop]
    by_cases hp : p < 5
    · rw [if_pos hp]
      refine ⟨rfl, ?_⟩
      intro out h hinv
      cases h
      exact hinv
    · rw [if_neg hp]
      cases hc : addConstraints (updatePricesCopy g p) R fR' ds with
      | error m2 =>
        have := addConstraints_isOk (updatePricesCopy g p) R fR' ds (hC p)
        rw [hc] at this
        simp [isErr] at this
      | ok cs =>
        have hobj : isErr (if wo then getObjectiveExpr (updatePricesCopy g p) R fR'
            else Except.ok (.const 0)) = false := by
          by_cases hwo : wo
          · rw [if_pos hwo]
            exact getObjectiveExpr_isOk (updatePricesCopy g p) R fR' ds (hC p)
          · rw [if_neg hwo]; rfl
        cases ho : (if wo then getObjectiveExpr (updatePricesCopy g p) R fR'
            else Except.ok (.const 0)) with
        | error m2 => rw [ho] at hobj; simp [isErr] at hobj
        | ok obj =>
          dsimp only
          by_cases hchk : o.check (sAssertions (sAddAll cs (sPush s)))
          · rw [if_pos hchk]
            refine ⟨(ih _ _ _ _).1, ?_⟩
            intro out h _
            exact (ih _ _ _ _).2 out h (by simp)
          · rw [if_neg hchk]
            refine ⟨rfl, ?_⟩
            intro out h hinv
            cases h
            exact hinv

/-- S2 on well-formed inputs: no exception, and an unsolved return carries
no model. -/
theorem setPricesHighToLow_characterize (g : Graph) (R : List (List Route))
    (fR : List (List RExpr)) (ds : List Demand) (o : Oracle) (wo : Bool) (s : SolverState)
    (hWF : WFInput g R fR ds) :
    isErr (setPricesHighToLow g R fR ds o wo s) = false ∧
    ∀ m b g' s', setPricesHighToLow g R fR ds o wo s = Except.ok ((m, b), g', s') →
      (m = none ↔ b = false) := by
  obtain ⟨hC, htot⟩ := hWF
  have hpre : isErr (preassign g ds 0 R fR) = false := by
    apply preassign_isOk g ds R fR 0 hC.2.1 (by rw [← hC.1]; omega)
    intro routes hroutes
    refine ⟨?_, htot routes hroutes⟩
    apply exMapM_isOk
    intro r hr
    exact compute_route_price_isOk g r (routeResolvable_of_WF g R fR ds hC routes hroutes r hr)
  rw [setPricesHighToLow]
  cases hfR' : preassign g ds 0 R fR with
  | error m => rw [hfR'] at hpre; simp [isErr] at hpre
  | ok fR' =>
    rw [except_ok_bind]
    have hC' : ConstraintsWF g R fR' ds := by
      refine ⟨hC.1, ?_, ?_, hC.2.2.2.1, hC.2.2.2.2⟩
      · rw [preassign_length g ds R fR fR' 0 hfR']
        exact hC.2.1
      · exact preassign_zip g ds R fR fR' 0 hfR' hC.2.2.1
    have hCp : ∀ p : ℚ, ConstraintsWF (updatePricesCopy g p) R fR' ds := by
      intro p
      rw [updatePricesCopy]
      exact ConstraintsWF_mapEdges (updPriceData p) (updPriceData_preserves p) g R fR' ds hC'
    have hloop := s2Loop_characterize g R fR' ds o wo hCp 100 120 s none none
    cases hout : s2Loop g R fR' ds o wo 100 120 s none none with
    | error m =>
      have h1 := hloop.1
      rw [hout] at h1
      simp [isErr] at h1
    | ok out =>
      rw [except_ok_bind]
      have hinv := hloop.2 out hout (by simp)
      obtain ⟨m0, lsp0, st0⟩ := out
      simp only at hinv
      refine ⟨?_, ?_⟩
      · cases m0 with
        | some mm =>
          cases lsp0 with
          | some price => rfl
          | none => simp at hinv
        | none =>
          cases lsp0 with
          | some price => simp at hinv
          | none => rfl
      · intro m b g' s' h
        cases m0 with
        | some mm =>
          cases lsp0 with
          | some price =>
            dsimp only at h
            cases h
            simp
          | none => simp at hinv
        | none =>
          cases lsp0 with
          | some price => simp at hinv
          | none =>
            dsimp only at h
            cases h
            simp

/-- S4's bisection on well-formed inputs: no exception, and an unsolved
return carries no model. -/
theorem bsLoop_characterize (R : List (List Route)) (fR : List (List RExpr))
    (ds : List Demand) (o : Oracle) :
    ∀ (fuel : Nat) (cmin cmax : ℤ) (g : Graph) (res0 : StratResult) (s : SolverState),
      ConstraintsWF g R fR ds → (res0.1 = none ↔ res0.2 = false) →
      isErr (bsLoop R fR ds o fuel cmin cmax g res0 s) = false ∧
      ∀ out, bsLoop R fR ds o fuel cmin cmax g res0 s = Except.ok out →
        (out.1.1 = none ↔ out.1.2 = false) := by
  intro fuel
  induction fuel with
  | zero =>
    intro cmin cmax g res0 s _ hres
    refine ⟨rfl, ?_⟩
    intro out h
    cases h
    exact hres
  | succ f ih =>
    intro cmin cmax g res0 s hC hres
    rw [bsLoop]
    have hC1 : ConstraintsWF (setCapAll g (((cmin + cmax) / 2 : ℤ) : ℚ)) R fR ds := by
      rw [setCapAll]
      exact ConstraintsWF_mapEdges
        (fun d => { d with capacity := some (((cmin + cmax) / 2 : ℤ) : ℚ) })
        (fun d => ⟨fun h => h, fun h => h, fun _ => rfl⟩) g R fR ds hC
    have hopt := optimizeObjective_characterize (setCapAll g (((cmin + cmax) / 2 : ℤ) : ℚ))
      R fR ds o s hC1
    cases hop : optimizeObjective (setCapAll g (((cmin + cmax) / 2 : ℤ) : ℚ)) R fR ds o s with
    | error m =>
      have h1 := hopt.1
      rw [hop] at h1
      simp [isErr] at h1
    | ok out1 =>
      rw [except_ok_bind]
      obtain ⟨⟨m1, b1⟩, g2, s1⟩ := out1
      have hiff := hopt.2 m1 b1 g2 s1 hop
      have hC2 : ConstraintsWF g2 R fR ds := by rw [hiff.2]; exact hC1
      by_cases hb : b1
      · rw [if_pos (by simp [hb])]
        exact ih cmin ((cmin + cmax) / 2) g2 (m1, b1) s1 hC2 hiff.1
      · rw [if_neg (by simp [hb])]
        exact ih ((cmin + cmax) / 2) cmax g2 (m1, b1) s1 hC2 hiff.1

/-- S5's inflation on well-formed inputs: no exception, and an unsolved
return carries no model. -/
theorem incLoop_characterize (R : List (List Route)) (fR : List (List RExpr))
    (ds : List Demand) (o : Oracle) :
    ∀ (fuel : Nat) (g : Graph) (res0 : StratResult) (s : SolverState),
      ConstraintsWF g R fR ds → (res0.1 = none ↔ res0.2 = false) →
      isErr (incLoop R fR ds o fuel g res0 s) = false ∧
      ∀ out, incLoop R fR ds o fuel g res0 s = Except.ok out →
        (out.1.1 = none ↔ out.1.2 = false) := by
  intro fuel
  induction fuel with
  | zero =>
    intro g res0 s _ hres
    refine ⟨rfl, ?_⟩
    intro out h
    cases h
    exact hres
  | succ f ih =>
    intro g res0 s hC hres
    rw [incLoop]
    have hcap : ∀ e ∈ g.edges, e.data.capacity.isSome := fun e he => (hC.2.2.2.1 e he).2.2
    rw [bumpCaps_ok g 50 hcap, except_ok_bind]
    have hC1 : ConstraintsWF (mapEdges (bumpData 50) g) R fR ds :=
      ConstraintsWF_mapEdges (bumpData 50)
        (fun d => ⟨fun h => h, fun h => h, fun _ => rfl⟩) g R fR ds hC
    have hopt := optimizeObjective_characterize (mapEdges (bumpData 50) g) R fR ds o s hC1
    cases hop : optimizeObjective (mapEdges (bumpData 50) g) R fR ds o s with
    | error m =>
      have h1 := hopt.1
      rw [hop] at h1
      simp [isErr] at h1
    | ok out1 =>
      rw [except_ok_bind]
      obtain ⟨⟨m1, b1⟩, g2, s1⟩ := out1
      have hiff := hopt.2 m1 b1 g2 s1 hop
      have hC2 : ConstraintsWF g2 R fR ds := by rw [hiff.2]; exact hC1
      by_cases hb : b1
      · rw [if_pos (by simp [hb])]
        refine ⟨rfl, ?_⟩
        intro out h
        cases h
        exact hiff.1
      · rw [if_neg (by simp [hb])]
        exact ih g2 (m1, b1) s1 hC2 hiff.1

/-- Claim C5, amended: on well-formed inputs — every route's edges exist
in the graph, every edge dictionary carries `f_e`, `price` and `capacity`,
the route/flow/demand shapes agree, and no fully-numeric demand has route
prices summing to zero — no strategy raises: each returns a `(model,
solved)` pair, and the model is absent exactly when `solved` is false (so
an unsolved search reports `(None, false)`). -/
theorem strategies_never_throw_amended (g : Graph) (R : List (List Route))
    (fR : List (List RExpr)) (ds : List Demand) (hWF : WFInput g R fR ds)
    (strat : StratName) (o : Oracle) (s : SolverState) :
    isErr (runStrategy strat g R fR ds o s) = false ∧
    ∀ m b g' s', runStrategy strat g R fR ds o s = Except.ok ((m, b), g', s') →
      (m = none ↔ b = false) := by
  cases strat with
  | optimize =>
    have h := optimizeObjective_characterize g R fR ds o s hWF.1
    exact ⟨h.1, fun m b g' s' hh => (h.2 m b g' s' hh).1⟩
  | highToLow => exact setPricesHighToLow_characterize g R fR ds o false s hWF
  | highToLowWO => exact setPricesHighToLow_characterize g R fR ds o true s hWF
  | bsCapacity =>
    have h := bsLoop_characterize R fR ds o 6 500 5000 g (none, false) s hWF.1 (by simp)
    exact ⟨h.1, fun m b g' s' hh => h.2 ((m, b), g', s') hh⟩
  | incCapacity =>
    have h := incLoop_characterize R fR ds o 10 g (none, false) s hWF.1 (by simp)
    exact ⟨h.1, fun m b g' s' hh => h.2 ((m, b), g', s') hh⟩

/-- A one-edge graph whose price is symbolic (pre-solve state after the
variable allocator). -/
def gSym : Graph :=
  ⟨[⟨"A", "B", "e0",
    { color := "red", capacity := some 100, price := some (.var "p_A-B-red"), k := 1,
      f_e := some (.var "f_A-B-red") }⟩]⟩

/-- Witness for the amended C5 at the concrete well-formed instance
`gSym`. -/
theorem strategies_never_throw_amended_witness :
    isErr (runStrategy .optimize gSym RW1 fRW1 dsW1 oUnsat sInit) = false ∧
    ∀ m b g' s', runStrategy .optimize gSym RW1 fRW1 dsW1 oUnsat sInit =
      Except.ok ((m, b), g', s') → (m = none ↔ b = false) :=
  strategies_never_throw_amended gSym RW1 fRW1 dsW1
    ⟨⟨by decide, by decide, by decide, by decide, by decide⟩, by decide⟩
    .optimize oUnsat sInit

end TrafficSpec
